import Mathlib

/-!
# RSSFeeder: the VK collector and the National Geographic parser

A shallow embedding of `internal/sources/vk/collector/collector.go` and of
`internal/sources/natgeo/parser/parser.go`, with the properties of the
specification stated and proved over it.

Modelling conventions.

* A Go `string` holding text is a Lean `String`; `[]rune(text)` is `text.data`
  and `string(runes)` is `String.mk runes`.  The ASCII delimiters the code
  searches for (newline, space) are single bytes that never occur inside a
  multi-byte UTF-8 sequence, so the rune-level view agrees with the byte-level
  one on valid UTF-8 text.
* Go `int` is `Int`; the code does no arithmetic on the values it receives, so
  no overflow can occur.
* A `*html.Node` is an `Option Node`: `none` is the nil pointer.  A node owns the
  list of its children (`FirstChild` / `NextSibling` chain), so every tree is
  finite and children are never nil.
* A run-time panic is an `Except.error` carrying a `Fault`; a Go `error` value
  is an `Except.error` carrying its message.
* The packages `vkapi` and `rss` and the standard library are not part of the
  sources; their record types are declared with the fields the code uses, and
  the time-zone database and the time formatter are parameters (`TimeEnv`).
  Likewise `http.Get`, `ioutil.ReadAll`, `html.Parse` and `html.Render` are
  parameters (`WebEnv`).
* `strings.Index` and `strings.LastIndex` give rune offsets here and byte
  offsets in Go; the code only uses them to cut the same string at an ASCII
  delimiter, where both cut at the same place.
* The goroutines of `extractTagAttributes` share no memory: each writes to its
  own record only.  A goroutine is therefore run as one step, and the order in
  which the goroutines complete is a parameter (`Schedule`); a scheduler is
  fair when it lets every goroutine complete exactly once.  A panic in a
  goroutine ends the program, so it is the fault of `composeArticles`.
* Messages written to the log are not modelled.
-/

namespace RSSFeeder

/-! ## Definitions -/

/-! ### Standard-library strings -/

/-- The scan behind `strings.ReplaceAll` for a non-empty `old`: left to right,
non-overlapping; `skip` counts the runes of a match still to be dropped. -/
def replaceLoop (old new : List Char) : Nat → List Char → List Char
  | _, [] => []
  | skip + 1, _ :: cs => replaceLoop old new skip cs
  | 0, c :: cs =>
    if old.isPrefixOf (c :: cs) then new ++ replaceLoop old new (old.length - 1) cs
    else c :: replaceLoop old new 0 cs

/-- Go `strings.ReplaceAll(s, old, new)`.  With an empty `old` the replacement is
inserted before every rune and at the end, as in Go. -/
def stringsReplaceAll (s old new : String) : String :=
  if old.data = [] then String.mk (new.data ++ s.data.flatMap (fun c => c :: new.data))
  else String.mk (replaceLoop old.data new.data 0 s.data)

/-- Go `strings.Contains(s, substr)`: `substr` occurs in `s` at some offset. -/
def stringsContains (s substr : String) : Bool :=
  s.data.tails.any (fun t => substr.data.isPrefixOf t)

/-- The scan behind `strings.Index`: the first offset, counted from `i`, at which
`substr` starts, or `-1`. -/
def indexLoop (substr : List Char) : Nat → List Char → Int
  | i, [] => if substr = [] then (i : Int) else -1
  | i, c :: cs => if substr.isPrefixOf (c :: cs) then (i : Int) else indexLoop substr (i + 1) cs

/-- Go `strings.Index(s, substr)`.  The offset counts runes; it is only used to
slice the same string at a delimiter, where rune and byte offsets cut alike. -/
def stringsIndex (s substr : String) : Int :=
  indexLoop substr.data 0 s.data

/-- The scan behind `strings.LastIndex`: `best` is the last offset found so
far. -/
def lastIndexLoop (substr : List Char) : Nat → List Char → Int → Int
  | i, [], best => if substr = [] then (i : Int) else best
  | i, c :: cs, best =>
    lastIndexLoop substr (i + 1) cs (if substr.isPrefixOf (c :: cs) then (i : Int) else best)

/-- Go `strings.LastIndex(s, substr)`. -/
def stringsLastIndex (s substr : String) : Int :=
  lastIndexLoop substr.data 0 s.data (-1)

/-! ### Records of `vkapi` and `rss` -/

/-- One rendition of a photo (`vkapi.Size`). -/
structure Size where
  Width : Int
  Height : Int
  URL : String
deriving DecidableEq, Repr

/-- The renditions of a photo (`vkapi.PhotoAttachment`). -/
structure PhotoAttachment where
  Sizes : List Size
deriving DecidableEq, Repr

/-- An attachment of a wall post (`vkapi.Attachment`). -/
structure Attachment where
  «Type» : String
  Photo : PhotoAttachment
deriving DecidableEq, Repr

/-- A wall post (`vkapi.WallPost`). -/
structure WallPost where
  ID : Int
  OwnerID : Int
  Text : String
  Date : Int
  Attachments : List Attachment
deriving DecidableEq, Repr

/-- A community (`vkapi.Community`). -/
structure Community where
  Name : String
  ScreenName : String
  Description : String
deriving DecidableEq, Repr

/-- A feed item (`rss.Item`). -/
structure Item where
  Title : String
  Description : String
  Date : String
  Link : String
deriving DecidableEq, Repr

/-- The channel of a feed (`rss.Channel`). -/
structure Channel where
  Title : String
  Link : String
  Description : String
  Items : List Item
deriving DecidableEq, Repr

/-- A feed (`rss.RSS`). -/
structure RSS where
  Channel : Channel
deriving DecidableEq, Repr

/-- The zero value `rss.Item{}`. -/
def Item.zero : Item := ⟨"", "", "", ""⟩

/-- The zero value `rss.RSS{}`. -/
def RSS.zero : RSS := ⟨⟨"", "", "", []⟩⟩

/-- A Go `error`, by its message. -/
abbrev Error := String

/-- A loaded time zone (`*time.Location`). -/
structure Location where
  name : String
deriving DecidableEq, Repr

/-- The standard-library services `getDateInReadableFormat` relies on:
`time.LoadLocation` and `time.Unix(ts, 0).In(loc).Format(layout)`. -/
structure TimeEnv where
  LoadLocation : String → Except Error Location
  Format : Location → Int → String → String

/-! ### `collector.go` -/

/-- The loop of `getMaxSizePhotoURL`.  `maxWidth` and `maxHeight` are never
assigned in the loop body, so they are loop constants; only `url` changes. -/
def maxSizeLoop (maxWidth maxHeight : Int) : String → List Size → String
  | url, [] => url
  | url, size :: rest =>
    if size.Width > maxWidth ∧ size.Height > maxHeight then
      maxSizeLoop maxWidth maxHeight size.URL rest
    else
      maxSizeLoop maxWidth maxHeight url rest

/-- Embedding of `getMaxSizePhotoURL`. -/
def getMaxSizePhotoURL (photo : PhotoAttachment) : String :=
  maxSizeLoop 0 0 "" photo.Sizes

/-- The selection as the specification words it: a scan with a running best,
where a size whose width and height both strictly exceed the best so far
becomes the new best. -/
def strictDominanceScan : Int → Int → String → List Size → String
  | _, _, url, [] => url
  | bestWidth, bestHeight, url, size :: rest =>
    if size.Width > bestWidth ∧ size.Height > bestHeight then
      strictDominanceScan size.Width size.Height size.URL rest
    else
      strictDominanceScan bestWidth bestHeight url rest

/-- The inner loop `for j := i; j > 0; j--` of `getWallPostTitle`: the first `j`
met, going down from `i` and stopping before `0`, with `runes[j] == ' '`. -/
def spaceScan (runes : List Char) : Nat → Option Nat
  | 0 => none
  | j + 1 => if runes[j + 1]? = some ' ' then some (j + 1) else spaceScan runes j

/-- The loop `for i, r := range runes` of `getWallPostTitle`; the second list is
the part of `runes` from index `i` on. -/
def titleLoop (text : String) (runes : List Char) : Nat → List Char → String
  | _, [] => text
  | i, r :: rest =>
    if i = 80 then
      match spaceScan runes i with
      | some j => String.mk (runes.take j) ++ "..."
      | none => String.mk (runes.take 77) ++ "..."
    else if r = '\n' then String.mk (runes.take i)
    else titleLoop text runes (i + 1) rest

/-- Embedding of `getWallPostTitle`. -/
def getWallPostTitle (text : String) : String :=
  let runes := text.data
  if runes.length = 0 then text
  else titleLoop text runes 0 runes

/-- Embedding of `getDateInReadableFormat`. -/
def getDateInReadableFormat (env : TimeEnv) (ts : Int) : Except Error String :=
  match env.LoadLocation "Asia/Yekaterinburg" with
  | .error err => .error err
  | .ok loc => .ok (env.Format loc ts "Mon, Jan 2 2006 15:04:05 -0700")

/-- Embedding of `parseWallPostAttachments`; the guard `len > 0` only skips an
empty loop. -/
def parseWallPostAttachments (rssItem : Item) (wallPost : WallPost) : Item :=
  if wallPost.Attachments.length > 0 then
    wallPost.Attachments.foldl
      (fun (rssItem : Item) attachment =>
        if attachment.«Type» ≠ "photo" then rssItem
        else { rssItem with
          Description := "<img src=\"" ++ getMaxSizePhotoURL attachment.Photo ++ "\">\n"
            ++ rssItem.Description })
      rssItem
  else rssItem

/-- Embedding of `parseWallPosts`. -/
def parseWallPosts (env : TimeEnv) : RSS → List WallPost → Except Error RSS
  | r, [] => .ok r
  | r, wallPost :: rest =>
    let rssItem := Item.zero
    let rssItem := { rssItem with Title := getWallPostTitle wallPost.Text }
    let rssItem := { rssItem with
      Description := stringsReplaceAll wallPost.Text "\n" "<br>" }
    match getDateInReadableFormat env wallPost.Date with
    | .error err => .error err
    | .ok date =>
      let rssItem := { rssItem with Date := date }
      let rssItem := { rssItem with
        Link := "https://vk.com/wall" ++ toString wallPost.OwnerID ++ "_"
          ++ toString wallPost.ID }
      let rssItem := parseWallPostAttachments rssItem wallPost
      parseWallPosts env
        { r with Channel := { r.Channel with Items := r.Channel.Items ++ [rssItem] } } rest

/-- Embedding of `parseCommunityInfo`. -/
def parseCommunityInfo (r : RSS) (community : Community) : RSS :=
  { r with Channel := { r.Channel with
      Title := community.Name
      Link := "https://vk.com/" ++ community.ScreenName
      Description := stringsReplaceAll community.Description "\n" "<br>" } }

/-- Embedding of `ComposeRSS`. -/
def ComposeRSS (env : TimeEnv) (community : Community) (wallPosts : List WallPost) :
    Except Error RSS :=
  let r := RSS.zero
  let r := parseCommunityInfo r community
  match parseWallPosts env r wallPosts with
  | .error err => .error err
  | .ok r => .ok r

/-! ### `golang.org/x/net/html` nodes -/

/-- The kinds of node (`html.NodeType`). -/
inductive NodeType where
  | ErrorNode
  | TextNode
  | DocumentNode
  | ElementNode
  | CommentNode
  | DoctypeNode
  | RawNode
deriving DecidableEq, Repr

/-- An attribute of an element (`html.Attribute`). -/
structure Attribute where
  Namespace : String
  Key : String
  Val : String
deriving DecidableEq, Repr

/-- A document node (`html.Node`) with the list of its children, in sibling
order. -/
inductive Node where
  | mk («Type» : NodeType) (Data : String) (Attr : List Attribute) (Children : List Node)

/-- Field `Type` of a node. -/
def Node.«Type» : Node → NodeType
  | .mk t _ _ _ => t

/-- Field `Data` of a node. -/
def Node.Data : Node → String
  | .mk _ d _ _ => d

/-- Field `Attr` of a node. -/
def Node.Attr : Node → List Attribute
  | .mk _ _ a _ => a

/-- The children of a node: the chain from `FirstChild` along `NextSibling`. -/
def Node.Children : Node → List Node
  | .mk _ _ _ cs => cs

/-- A run-time panic. -/
inductive Fault where
  | nilDereference
  | indexOutOfRange
  | sliceBoundsOutOfRange
deriving DecidableEq, Repr

/-! ### `parser.go`: the tag locator -/

/-- The loop of `getAttribute` over `n.Attr`. -/
def getAttributeLoop (key : String) : List Attribute → String × Bool
  | [] => ("", false)
  | attr :: rest => if attr.Key = key then (attr.Val, true) else getAttributeLoop key rest

/-- Embedding of `getAttribute`, called on a non-nil node only. -/
def getAttribute (n : Node) (key : String) : String × Bool :=
  getAttributeLoop key n.Attr

/-- Embedding of `checkKey`.  Reading `n.Type` through a nil pointer panics. -/
def checkKey (n : Option Node) (k : String) : Except Fault Bool :=
  match n with
  | none => .error .nilDereference
  | some node =>
    if node.«Type» = NodeType.ElementNode then
      let (s, ok) := getAttribute node "class"
      if ok && stringsContains s k then .ok true else .ok false
    else .ok false

mutual
/-- The body of `traverse` at a non-nil node. -/
def traverseNode (k : String) : Node → Except Fault (Option Node)
  | .mk t d a children =>
    match checkKey (some (.mk t d a children)) k with
    | .error f => .error f
    | .ok true => .ok (some (.mk t d a children))
    | .ok false => traverseChildren k children
/-- The loop `for c := n.FirstChild; c != nil; c = c.NextSibling` of `traverse`. -/
def traverseChildren (k : String) : List Node → Except Fault (Option Node)
  | [] => .ok none
  | c :: rest =>
    match traverseNode k c with
    | .error f => .error f
    | .ok (some result) => .ok (some result)
    | .ok none => traverseChildren k rest
end

/-- Embedding of `traverse`.  On a nil pointer the first statement,
`checkKey(n, k)`, already panics; `n.FirstChild` would be the next read. -/
def traverse (n : Option Node) (k : String) : Except Fault (Option Node) :=
  match n with
  | none =>
    match checkKey none k with
    | .error f => .error f
    | .ok _ => .error .nilDereference
  | some node => traverseNode k node

/-- Embedding of `getElementByClass`. -/
def getElementByClass (n : Option Node) (k : String) : Except Fault (Option Node) :=
  traverse n k

/-- Embedding of `findTag`. -/
def findTag (tagName : String) (doc : Option Node) : Except Fault (Option Node) :=
  getElementByClass doc tagName

/-! ### `parser.go`: articles -/

/-- The slice expression `s[lo:]`; it panics unless `0 ≤ lo ≤ len(s)`. -/
def sliceFrom (s : String) (lo : Int) : Except Fault String :=
  if 0 ≤ lo ∧ lo ≤ (s.length : Int) then .ok (String.mk (s.data.drop lo.toNat))
  else .error .sliceBoundsOutOfRange

/-- The slice expression `s[:hi]`; it panics unless `0 ≤ hi ≤ len(s)`. -/
def sliceTo (s : String) (hi : Int) : Except Fault String :=
  if 0 ≤ hi ∧ hi ≤ (s.length : Int) then .ok (String.mk (s.data.take hi.toNat))
  else .error .sliceBoundsOutOfRange

/-- The selector `n.FirstChild`; it panics on a nil pointer. -/
def firstChild (n : Option Node) : Except Fault (Option Node) :=
  match n with
  | none => .error .nilDereference
  | some node => .ok node.Children.head?

/-- An article record (`Article`). -/
structure Article where
  Link : String
  Date : String
  Title : String
  Description : String
deriving DecidableEq, Repr

/-- The zero value `Article{}` of `var a Article`. -/
def Article.zero : Article := ⟨"", "", "", ""⟩

/-- An HTTP response (`*http.Response`). -/
structure Response where
  Body : String
deriving DecidableEq, Repr

/-- The services the parser relies on: `http.Get`, `ioutil.ReadAll` on the
response body, `html.Parse`, `html.Render` into a buffer (on a non-nil node), and
the text of `debug.Stack()`. -/
structure WebEnv where
  Get : String → Except Error Response
  ReadAll : Response → Except Error String
  Parse : String → Except Error Node
  Render : Node → Except Error String
  Stack : String

/-- The error built by `fmt.Errorf("\n%s\n%s", err.Error(), debug.Stack())`. -/
def withStack (env : WebEnv) (err : Error) : Error :=
  "\n" ++ err ++ "\n" ++ env.Stack

/-- Embedding of `sendRequest`. -/
def sendRequest (env : WebEnv) (u : String) : Except Error String :=
  match env.Get u with
  | .error err => .error (withStack env err)
  | .ok response =>
    match env.ReadAll response with
    | .error err => .error (withStack env err)
    | .ok body => .ok body

/-- Embedding of `fetchHTMLNode`; a successful parse gives a non-nil node. -/
def fetchHTMLNode (env : WebEnv) (u : String) : Except Error Node :=
  match sendRequest env u with
  | .error err => .error err
  | .ok body =>
    match env.Parse body with
    | .error err => .error (withStack env err)
    | .ok doc => .ok doc

/-- Embedding of `getTextFromTag`: the rendered text and the error, if any.
`html.Render` starts by reading `n.Type`, so a nil node panics. -/
def getTextFromTag (env : WebEnv) (doc : Option Node) : Except Fault (String × Option Error) :=
  match doc with
  | none => .error .nilDereference
  | some node =>
    match env.Render node with
    | .error err => .ok ("", some (withStack env err))
    | .ok text => .ok (text, none)

/-- Embedding of `Article.extractTitle`. -/
def extractTitle (a : Article) (tag : Option Node) : Except Fault Article :=
  match tag with
  | none => .error .nilDereference
  | some node =>
    match node.Attr[2]? with
    | none => .error .indexOutOfRange
    | some attr =>
      let title := attr.Val
      let i := stringsLastIndex title ","
      match sliceTo title i with
      | .error f => .error f
      | .ok t => .ok { a with Title := t }

/-- Embedding of `Article.extractDescription`; the error of `getTextFromTag` is
logged and otherwise ignored. -/
def extractDescription (env : WebEnv) (a : Article) (doc : Option Node) :
    Except Fault Article :=
  match findTag "Article__Headline__Desc" doc with
  | .error f => .error f
  | .ok none => .ok a
  | .ok (some tag) =>
    match getTextFromTag env (some tag) with
    | .error f => .error f
    | .ok (text, _) =>
      let i := stringsIndex text ">"
      match sliceFrom text (i + 1) with
      | .error f => .error f
      | .ok description =>
        let i := stringsIndex description "<"
        match sliceTo description i with
        | .error f => .error f
        | .ok description => .ok { a with Description := description }

/-- Embedding of `Article.extractPublicationDate`; the error of `getTextFromTag`
is logged and otherwise ignored. -/
def extractPublicationDate (env : WebEnv) (a : Article) (doc : Option Node) :
    Except Fault Article :=
  match findTag "Byline__Meta Byline__Meta--publishDate" doc with
  | .error f => .error f
  | .ok tag =>
    match getTextFromTag env tag with
    | .error f => .error f
    | .ok (text, _) =>
      if text.data.length ≤ 0 then .ok { a with Date := text }
      else
        let i := stringsIndex text ">"
        match sliceFrom text (i + 1) with
        | .error f => .error f
        | .ok date =>
          let i := stringsIndex date "<"
          match sliceTo date i with
          | .error f => .error f
          | .ok date => .ok { a with Date := stringsReplaceAll date "Published " "" }

/-- Embedding of `Article.composeInfo`; a failed fetch is logged and the record
is left as it is. -/
def composeInfo (env : WebEnv) (a : Article) (articleTag : Option Node) :
    Except Fault Article :=
  match extractTitle a articleTag with
  | .error f => .error f
  | .ok a =>
    match articleTag with
    | none => .error .nilDereference
    | some node =>
      match node.Attr[3]? with
      | none => .error .indexOutOfRange
      | some attr =>
        let a := { a with Link := attr.Val }
        match fetchHTMLNode env a.Link with
        | .error _ => .ok a
        | .ok doc =>
          match extractDescription env a (some doc) with
          | .error f => .error f
          | .ok a => extractPublicationDate env a (some doc)

/-- A record appended to `articles` together with the goroutine started on it:
`record` is what `&a` points to, `articleTag` the node the goroutine works
from. -/
structure Spawned where
  record : Article
  articleTag : Option Node

/-- The body of the loop of `extractTagAttributes` for one child `commonTag`:
`none` when the child is skipped, otherwise the `articleTag` of the record to
append. -/
def extractTagAttributesBody (env : WebEnv) (commonTag : Node) :
    Except Fault (Option (Option Node)) :=
  match findTag "SectionLabel--sponsor" (some commonTag) with
  | .error f => .error f
  | .ok (some _) => .ok none
  | .ok none =>
    match findTag "SectionLabel SectionLabel--link" (some commonTag) with
    | .error f => .error f
    | .ok asdas =>
      match firstChild asdas with
      | .error f => .error f
      | .ok child =>
        match firstChild child with
        | .error f => .error f
        | .ok grandchild =>
          match getTextFromTag env grandchild with
          | .error f => .error f
          | .ok (text, _) =>
            if !(stringsContains text "Magazine") then
              match firstChild (some commonTag) with
              | .error f => .error f
              | .ok c1 =>
                match firstChild c1 with
                | .error f => .error f
                | .ok c2 =>
                  match firstChild c2 with
                  | .error f => .error f
                  | .ok articleTag => .ok (some articleTag)
            else .ok none

/-- The loop of `extractTagAttributes` over the children of `externalTag`, from
`commonTag := externalTag.FirstChild` along `NextSibling`. -/
def extractTagAttributesLoop (env : WebEnv) :
    List Spawned → List Node → Except Fault (List Spawned)
  | articles, [] => .ok articles
  | articles, commonTag :: rest =>
    match extractTagAttributesBody env commonTag with
    | .error f => .error f
    | .ok none => extractTagAttributesLoop env articles rest
    | .ok (some articleTag) =>
      extractTagAttributesLoop env (articles ++ [⟨Article.zero, articleTag⟩]) rest

/-- Embedding of `extractTagAttributes`; reading `externalTag.FirstChild`
panics on a nil pointer. -/
def extractTagAttributes (env : WebEnv) (articles : List Spawned)
    (externalTag : Option Node) : Except Fault (List Spawned) :=
  match externalTag with
  | none => .error .nilDereference
  | some node => extractTagAttributesLoop env articles node.Children

/-- One goroutine, run to its end: `a.composeInfo(articleTag)` on the record at
index `i`.  A panic in a goroutine ends the program. -/
def runGoroutine (env : WebEnv) (articles : List Spawned) (i : Nat) :
    Except Fault (List Spawned) :=
  match articles[i]? with
  | none => .ok articles
  | some s =>
    match composeInfo env s.record s.articleTag with
    | .error f => .error f
    | .ok a => .ok (articles.set i { s with record := a })

/-- The wait `wg.Wait()`: the goroutines have run to their end, in the order
`order` of their completion. -/
def wgWait (env : WebEnv) : List Nat → List Spawned → Except Fault (List Spawned)
  | [], articles => .ok articles
  | i :: order, articles =>
    match runGoroutine env articles i with
    | .error f => .error f
    | .ok articles => wgWait env order articles

/-- A scheduler: for `n` goroutines, the order in which they complete. -/
abbrev Schedule := Nat → List Nat

/-- Embedding of `composeArticles`.  `externalTag.FirstChild` is the first child
of `externalTag` and `externalTag.FirstChild.NextSibling.NextSibling` its third;
the goroutines complete in the order the scheduler gives. -/
def composeArticles (env : WebEnv) (sched : Schedule) (externalTag : Option Node) :
    Except Fault (List Article) :=
  match externalTag with
  | none => .error .nilDereference
  | some node =>
    match findTag "GridPromoTile__Row" node.Children[0]? with
    | .error f => .error f
    | .ok row =>
      match extractTagAttributes env [] row with
      | .error f => .error f
      | .ok articles =>
        match node.Children[1]? with
        | none => .error .nilDereference
        | some _ =>
          match findTag "GridPromoTile__Row" node.Children[2]? with
          | .error f => .error f
          | .ok row =>
            match extractTagAttributes env articles row with
            | .error f => .error f
            | .ok articles =>
              match wgWait env (sched articles.length) articles with
              | .error f => .error f
              | .ok articles => .ok (articles.map (fun s => s.record))

/-! ### Vocabulary of the specification -/

mutual
/-- The nodes of a tree in pre-order, depth first: a node, then the subtrees of
its children from first to last. -/
def Node.preorder : Node → List Node
  | .mk t d a children => .mk t d a children :: preorderList children
/-- Pre-order listing of a forest. -/
def preorderList : List Node → List Node
  | [] => []
  | c :: rest => c.preorder ++ preorderList rest
end

/-- The node is an element whose `class` attribute (the first attribute keyed
`class`) has a value containing `k` as a contiguous run of characters. -/
def ClassContains (k : String) (n : Node) : Prop :=
  n.«Type» = NodeType.ElementNode ∧
    ∃ pre a post, n.Attr = pre ++ a :: post ∧ (∀ b ∈ pre, b.Key ≠ "class") ∧
      a.Key = "class" ∧ k.data <:+: a.Val.data

/-- The result `r` is the first node of the listing `l` that satisfies
`ClassContains k`: either it is a node of `l` with no satisfying node before it,
or it is `none` and no node of `l` satisfies. -/
def FirstMatch (k : String) (l : List Node) (r : Option Node) : Prop :=
  match r with
  | some m => ∃ pre post, l = pre ++ m :: post ∧ (∀ x ∈ pre, ¬ ClassContains k x) ∧
      ClassContains k m
  | none => ∀ x ∈ l, ¬ ClassContains k x

/-- The test of `ClassContains`, computed: an element whose first attribute keyed
`class` has a value containing `k`. -/
def hasClass (k : String) (n : Node) : Bool :=
  decide (n.«Type» = NodeType.ElementNode) &&
    match n.Attr.find? (fun a => decide (a.Key = "class")) with
    | some a => stringsContains a.Val k
    | none => false

/-- The child is flagged sponsored: an element of its subtree has a class
containing `SectionLabel--sponsor`. -/
def sponsored (c : Node) : Bool :=
  c.preorder.any (hasClass "SectionLabel--sponsor")

/-- The section-label text of a child: the markup of the first child of the
first child of its section label (the first element of the subtree whose class
contains `SectionLabel SectionLabel--link`), empty when that node cannot be
rendered; `none` when the label or one of the two levels is missing. -/
def sectionLabelText (env : WebEnv) (c : Node) : Option String :=
  match c.preorder.find? (hasClass "SectionLabel SectionLabel--link") with
  | none => none
  | some label =>
    match label.Children.head? with
    | none => none
    | some child =>
      match child.Children.head? with
      | none => none
      | some grandchild =>
        match env.Render grandchild with
        | .ok text => some text
        | .error _ => some ""

/-- The teaser anchor of a child, three levels down along first children:
`none` when the first or the second level is missing, `some none` when the
third is. -/
def teaserOf (c : Node) : Option (Option Node) :=
  match c.Children.head? with
  | none => none
  | some c1 =>
    match c1.Children.head? with
    | none => none
    | some c2 => some c2.Children.head?

/-- The pointer handed to the enrichment of a child (nil when there is none). -/
def articleTagOf (c : Node) : Option Node :=
  match teaserOf c with
  | some tag => tag
  | none => none

/-- The child yields a record: it is not flagged sponsored and its
section-label text does not contain `Magazine`. -/
def qualifies (env : WebEnv) (c : Node) : Bool :=
  !sponsored c &&
    match sectionLabelText env c with
    | some text => !stringsContains text "Magazine"
    | none => false

/-- The children of a row can be walked without a fault: every child that is
not flagged sponsored has a section-label text, and when that text does not
contain `Magazine` the child has a first child that has a first child. -/
def Navigable (env : WebEnv) (row : Node) : Prop :=
  ∀ c ∈ row.Children, sponsored c = false →
    ∃ text, sectionLabelText env c = some text ∧
      (stringsContains text "Magazine" = false → (teaserOf c).isSome = true)

/-- The record appended for a child, with the goroutine started on it. -/
def spawnedOf (c : Node) : Spawned :=
  ⟨Article.zero, articleTagOf c⟩

/-- The text with every newline replaced by `<br>`, character by character. -/
def brText (s : String) : String :=
  String.mk (s.data.flatMap (fun c => if c = '\n' then ['<', 'b', 'r', '>'] else [c]))

/-- The inline image reference of a photo attachment, with its newline. -/
def photoMarkup (attachment : Attachment) : String :=
  "<img src=\"" ++ getMaxSizePhotoURL attachment.Photo ++ "\">\n"

/-- The description as the specification words it: the image references of the
photo attachments, the last one first, then the converted text. -/
def expectedDescription (post : WallPost) : String :=
  String.join (((post.Attachments.filter (fun a => a.«Type» = "photo")).reverse).map
    photoMarkup) ++ brText post.Text

/-- The link of a post: `https://vk.com/wall`, the owner, `_`, the post, both
numbers in decimal. -/
def expectedLink (post : WallPost) : String :=
  "https://vk.com/wall" ++ toString post.OwnerID ++ "_" ++ toString post.ID

/-- The feed item derived from one post once the time zone `loc` is loaded. -/
def expectedItem (env : TimeEnv) (loc : Location) (post : WallPost) : Item :=
  { Title := getWallPostTitle post.Text
    Description := expectedDescription post
    Date := env.Format loc post.Date "Mon, Jan 2 2006 15:04:05 -0700"
    Link := expectedLink post }

/-! ### Sample inputs -/

/-- The three sizes of the photo-selection example of the specification. -/
def sampleSizes : List Size :=
  [⟨100, 100, "a"⟩, ⟨200, 150, "b"⟩, ⟨150, 300, "c"⟩]

/-- The text `"hello world "` eight times over: 96 characters, spaces at the
indices 5, 11, 17, ..., 77, 83, 89, 95. -/
def helloWorldText : String :=
  String.join (List.replicate 8 "hello world ")

/-- Ninety times the letter `A`. -/
def ninetyAs : String :=
  String.mk (List.replicate 90 'A')

/-- A space followed by ninety times the letter `A`: the only space is at
index 0. -/
def leadingSpaceText : String :=
  String.mk (' ' :: List.replicate 90 'A')

/-- A two-line text whose line break is at index 10. -/
def twoLineText : String :=
  "first line\nsecond line"

/-- A time environment whose database has the zone `Asia/Yekaterinburg` only;
its formatter stands in for Go's and prints the timestamp. -/
def sampleEnv : TimeEnv :=
  { LoadLocation := fun name =>
      if name = "Asia/Yekaterinburg" then .ok ⟨name⟩ else .error ("unknown time zone " ++ name)
    Format := fun _ ts _ => toString ts }

/-- A time environment without a time-zone database. -/
def failingEnv : TimeEnv :=
  { LoadLocation := fun name => .error ("unknown time zone " ++ name)
    Format := fun _ ts _ => toString ts }

/-- A community. -/
def sampleCommunity : Community :=
  ⟨"Club", "club1", "line one\nline two"⟩

/-- A post with a photo, a link attachment and a second photo. -/
def samplePost : WallPost :=
  { ID := 678
    OwnerID := -12345
    Text := "first line\nsecond line"
    Date := 1609459200
    Attachments :=
      [⟨"photo", ⟨[⟨100, 100, "p1"⟩]⟩⟩, ⟨"link", ⟨[]⟩⟩, ⟨"photo", ⟨[⟨50, 60, "p2"⟩]⟩⟩] }

/-- A post without attachments. -/
def plainPost : WallPost :=
  { ID := 7, OwnerID := 1, Text := "plain", Date := 0, Attachments := [] }

/-- A document: a text node that carries a `class` attribute, then an element
whose class is `foobar baz`, inside a `div` of class `outer`; a second element
of class `foo` follows. -/
def sampleDoc : Node :=
  .mk .DocumentNode "" []
    [ .mk .ElementNode "div" [⟨"", "class", "outer"⟩]
        [ .mk .TextNode "foo" [⟨"", "class", "foo"⟩] [],
          .mk .ElementNode "span" [⟨"", "id", "x"⟩, ⟨"", "class", "foobar baz"⟩] [] ],
      .mk .ElementNode "p" [⟨"", "class", "foo"⟩] [] ]

mutual
/-- A plain renderer standing in for `html.Render` in the sample environment:
text is printed as it is, an element as its tag with its attributes around its
children (a void element without children as a single self-closed tag), and an
`ErrorNode` cannot be rendered. -/
def sampleRender : Node → Except Error String
  | .mk t d a children =>
    match t with
    | .ErrorNode => .error "html: cannot render an ErrorNode node"
    | .ElementNode =>
      match sampleRenderList children with
      | .error err => .error err
      | .ok inner =>
        let start :=
          "<" ++ d ++ String.join (a.map (fun x => " " ++ x.Key ++ "=\"" ++ x.Val ++ "\""))
        if children.isEmpty && decide (d ∈ ["br", "hr", "img", "input", "link", "meta"]) then
          .ok (start ++ "/>")
        else .ok (start ++ ">" ++ inner ++ "</" ++ d ++ ">")
    | .TextNode => .ok d
    | _ => sampleRenderList children
/-- The renderer on a list of siblings. -/
def sampleRenderList : List Node → Except Error String
  | [] => .ok ""
  | c :: rest =>
    match sampleRender c with
    | .error err => .error err
    | .ok first =>
      match sampleRenderList rest with
      | .error err => .error err
      | .ok others => .ok (first ++ others)
end

/-- An article page with a description and a publication date. -/
def articleDoc : Node :=
  .mk .DocumentNode "" []
    [ .mk .ElementNode "p" [⟨"", "class", "Article__Headline__Desc"⟩]
        [.mk .TextNode "A description" [] []],
      .mk .ElementNode "div" [⟨"", "class", "Byline__Meta Byline__Meta--publishDate"⟩]
        [.mk .TextNode "Published May 1, 2021" [] []] ]

/-- An article page whose description is empty and whose date text holds
`Published ` after another word. -/
def updatedDoc : Node :=
  .mk .DocumentNode "" []
    [ .mk .ElementNode "p" [⟨"", "class", "Article__Headline__Desc"⟩] [],
      .mk .ElementNode "div" [⟨"", "class", "Byline__Meta Byline__Meta--publishDate"⟩]
        [.mk .TextNode "Updated Published May 1" [] []] ]

/-- An article page with a description and no publication date. -/
def undatedDoc : Node :=
  .mk .DocumentNode "" []
    [ .mk .ElementNode "p" [⟨"", "class", "Article__Headline__Desc"⟩]
        [.mk .TextNode "A description" [] []] ]

/-- An article page whose description and date containers cannot be rendered:
each holds an `ErrorNode`. -/
def unrenderableDoc : Node :=
  .mk .DocumentNode "" []
    [ .mk .ElementNode "p" [⟨"", "class", "Article__Headline__Desc"⟩]
        [.mk .ErrorNode "" [] []],
      .mk .ElementNode "div" [⟨"", "class", "Byline__Meta Byline__Meta--publishDate"⟩]
        [.mk .ErrorNode "" [] []] ]

/-- An article page with neither a description nor a publication date. -/
def bareDoc : Node :=
  .mk .DocumentNode "" []
    [.mk .ElementNode "p" [⟨"", "class", "Article__Body"⟩] [.mk .TextNode "Body" [] []]]

/-- An article page whose description container is an image, a void element. -/
def voidDoc : Node :=
  .mk .DocumentNode "" []
    [ .mk .ElementNode "img"
        [⟨"", "class", "Article__Headline__Desc"⟩, ⟨"", "src", "cover.jpg"⟩] [],
      .mk .ElementNode "div" [⟨"", "class", "Byline__Meta Byline__Meta--publishDate"⟩]
        [.mk .TextNode "Published June 2, 2021" [] []] ]

/-- A web with four pages; any other address cannot be fetched. -/
def sampleWeb : WebEnv :=
  { Get := fun u =>
      if u = "https://ng.example/a" then .ok ⟨"a"⟩
      else if u = "https://ng.example/updated" then .ok ⟨"updated"⟩
      else if u = "https://ng.example/undated" then .ok ⟨"undated"⟩
      else if u = "https://ng.example/void" then .ok ⟨"void"⟩
      else .error ("Get " ++ u ++ ": connection refused")
    ReadAll := fun response => .ok response.Body
    Parse := fun body =>
      if body = "a" then .ok articleDoc
      else if body = "updated" then .ok updatedDoc
      else if body = "void" then .ok voidDoc
      else .ok undatedDoc
    Render := sampleRender
    Stack := "goroutine 1 [running]" }

/-- A teaser anchor: its third attribute holds the headline and the section,
its fourth the address of the article. -/
def sampleTeaser : Node :=
  .mk .ElementNode "a"
    [⟨"", "class", "AnchorLink"⟩, ⟨"", "target", "_self"⟩,
      ⟨"", "aria-label", "Deep sea, in colour, Science"⟩, ⟨"", "href", "https://ng.example/a"⟩] []

/-- A teaser anchor whose third attribute holds no comma. -/
def commalessTeaser : Node :=
  .mk .ElementNode "a"
    [⟨"", "class", "AnchorLink"⟩, ⟨"", "target", "_self"⟩,
      ⟨"", "aria-label", "Deep sea"⟩, ⟨"", "href", "https://ng.example/a"⟩] []

/-- A tile of a row: the teaser three levels down along first children, then
the section label with its text two levels down. -/
def tile (teaser : Node) (section_ : String) : Node :=
  .mk .ElementNode "div" [⟨"", "class", "GridPromoTile__Tile"⟩]
    [ .mk .ElementNode "div" [] [.mk .ElementNode "div" [] [teaser]],
      .mk .ElementNode "a" [⟨"", "class", "SectionLabel SectionLabel--link"⟩]
        [.mk .ElementNode "span" [] [.mk .TextNode section_ [] []]] ]

/-- A tile flagged sponsored; it has no section label. -/
def sponsoredTile : Node :=
  .mk .ElementNode "div" [⟨"", "class", "GridPromoTile__Tile"⟩]
    [.mk .ElementNode "span" [⟨"", "class", "SectionLabel SectionLabel--sponsor"⟩]
      [.mk .TextNode "Paid content" [] []]]

/-- A teaser anchor whose article cannot be fetched. -/
def unreachableTeaser : Node :=
  .mk .ElementNode "a"
    [⟨"", "class", "AnchorLink"⟩, ⟨"", "target", "_self"⟩,
      ⟨"", "aria-label", "Lost city, History"⟩, ⟨"", "href", "https://ng.example/gone"⟩] []

/-- A teaser anchor whose article page has no publication date. -/
def undatedTeaser : Node :=
  .mk .ElementNode "a"
    [⟨"", "class", "AnchorLink"⟩, ⟨"", "target", "_self"⟩,
      ⟨"", "aria-label", "Old map, Travel"⟩, ⟨"", "href", "https://ng.example/undated"⟩] []

/-- A teaser anchor whose article page has an empty description. -/
def updatedTeaser : Node :=
  .mk .ElementNode "a"
    [⟨"", "class", "AnchorLink"⟩, ⟨"", "target", "_self"⟩,
      ⟨"", "aria-label", "Night sky, Space"⟩, ⟨"", "href", "https://ng.example/updated"⟩] []

/-- A row: a sponsored tile, a magazine tile, and a tile that qualifies. -/
def sampleRow : Node :=
  .mk .ElementNode "div" [⟨"", "class", "GridPromoTile__Row"⟩]
    [sponsoredTile, tile updatedTeaser "Magazine", tile sampleTeaser "Science"]

/-- A second row: a tile whose article cannot be fetched, and a tile that
qualifies. -/
def secondRow : Node :=
  .mk .ElementNode "div" [⟨"", "class", "GridPromoTile__Row"⟩]
    [tile unreachableTeaser "History", tile updatedTeaser "Space"]

/-- A teaser anchor whose article page has an image as description container. -/
def voidTeaser : Node :=
  .mk .ElementNode "a"
    [⟨"", "class", "AnchorLink"⟩, ⟨"", "target", "_self"⟩,
      ⟨"", "aria-label", "Ice cave, Environment"⟩, ⟨"", "href", "https://ng.example/void"⟩] []

/-- A listing container: the first and the third child each hold a row. -/
def sampleListing : Node :=
  .mk .ElementNode "div" [⟨"", "class", "Listing"⟩]
    [ .mk .ElementNode "section" [] [sampleRow],
      .mk .ElementNode "hr" [] [],
      .mk .ElementNode "section" [] [secondRow] ]

/-- A listing container with one tile; the page of its article has an image as
description container. -/
def voidListing : Node :=
  .mk .ElementNode "div" [⟨"", "class", "Listing"⟩]
    [ .mk .ElementNode "section" []
        [.mk .ElementNode "div" [⟨"", "class", "GridPromoTile__Row"⟩]
          [tile voidTeaser "Environment"]],
      .mk .ElementNode "hr" [] [],
      .mk .ElementNode "section" []
        [.mk .ElementNode "div" [⟨"", "class", "GridPromoTile__Row"⟩] []] ]

/-- The scheduler under which the goroutines complete in the order they were
started. -/
def startOrder : Schedule :=
  fun n => List.range n

/-- The scheduler under which the goroutine started last completes first. -/
def reverseOrder : Schedule :=
  fun n => (List.range n).reverse

/-! ## Theorems -/

/-! ### Lists and strings -/

theorem drop_eq_cons_getElem? {α : Type} {l : List α} {i : Nat} {r : α} {rest : List α}
    (h : l.drop i = r :: rest) : l[i]? = some r ∧ l.drop (i + 1) = rest := by
  induction i generalizing l with
  | zero =>
    cases l with
    | nil => simp at h
    | cons a as => simp at h; simp [h.1, h.2]
  | succ n ih =>
    cases l with
    | nil => simp at h
    | cons a as =>
      simp only [List.drop_succ_cons] at h
      simpa using ih h

/-! ### `getWallPostTitle` -/

theorem spaceScan_some {runes : List Char} {n j : Nat} (h : spaceScan runes n = some j) :
    0 < j ∧ j ≤ n ∧ runes[j]? = some ' ' ∧ ∀ m, j < m → m ≤ n → runes[m]? ≠ some ' ' := by
  induction n with
  | zero => simp [spaceScan] at h
  | succ n ih =>
    unfold spaceScan at h
    split at h
    · rename_i hsp
      injection h with h
      subst h
      exact ⟨Nat.succ_pos n, Nat.le_refl _, hsp, fun m h1 h2 => absurd h2 (Nat.not_le.mpr h1)⟩
    · rename_i hsp
      obtain ⟨h0, hle, hj, hall⟩ := ih h
      refine ⟨h0, Nat.le_succ_of_le hle, hj, fun m h1 h2 => ?_⟩
      rcases Nat.lt_or_ge m (n + 1) with hlt | hge
      · exact hall m h1 (Nat.lt_succ_iff.mp hlt)
      · have : m = n + 1 := Nat.le_antisymm h2 hge
        subst this
        exact hsp

theorem spaceScan_none {runes : List Char} {n : Nat} (h : spaceScan runes n = none) :
    ∀ m, 0 < m → m ≤ n → runes[m]? ≠ some ' ' := by
  induction n with
  | zero => intro m h0 hm; omega
  | succ n ih =>
    unfold spaceScan at h
    split at h
    · cases h
    · rename_i hsp
      intro m h0 hm
      rcases Nat.lt_or_ge m (n + 1) with hlt | hge
      · exact ih h m h0 (Nat.lt_succ_iff.mp hlt)
      · have : m = n + 1 := Nat.le_antisymm hm hge
        subst this
        exact hsp

theorem spaceScan_eq_some {runes : List Char} {n j : Nat} (h0 : 0 < j) (hle : j ≤ n)
    (hj : runes[j]? = some ' ') (hall : ∀ m, j < m → m ≤ n → runes[m]? ≠ some ' ') :
    spaceScan runes n = some j := by
  cases hs : spaceScan runes n with
  | none => exact absurd hj (spaceScan_none hs j h0 hle)
  | some j2 =>
    obtain ⟨h0b, hleb, hjb, hallb⟩ := spaceScan_some hs
    rcases Nat.lt_trichotomy j j2 with hlt | heq | hgt
    · exact absurd hjb (hall j2 hlt hleb)
    · rw [heq]
    · exact absurd hj (hallb j hgt hle)

theorem spaceScan_eq_none {runes : List Char} {n : Nat}
    (hall : ∀ m, 0 < m → m ≤ n → runes[m]? ≠ some ' ') : spaceScan runes n = none := by
  cases hs : spaceScan runes n with
  | none => rfl
  | some j =>
    obtain ⟨h0, hle, hj, _⟩ := spaceScan_some hs
    exact absurd hj (hall j h0 hle)

theorem titleLoop_short (text : String) (runes : List Char) :
    ∀ (rest : List Char) (i : Nat), i + rest.length ≤ 80 → (∀ c ∈ rest, c ≠ '\n') →
      titleLoop text runes i rest = text := by
  intro rest
  induction rest with
  | nil => intro i _ _; rfl
  | cons r rest ih =>
    intro i hlen hnl
    have hi : i ≠ 80 := by simp only [List.length_cons] at hlen; omega
    have hr : r ≠ '\n' := hnl r (List.mem_cons_self _ _)
    unfold titleLoop
    rw [if_neg hi, if_neg hr]
    apply ih
    · simp only [List.length_cons] at hlen; omega
    · intro c hc; exact hnl c (List.mem_cons_of_mem _ hc)

theorem titleLoop_break (text : String) (runes : List Char) (post : List Char) :
    ∀ (pre : List Char) (i : Nat), i + pre.length < 80 → (∀ c ∈ pre, c ≠ '\n') →
      titleLoop text runes i (pre ++ '\n' :: post) = String.mk (runes.take (i + pre.length)) := by
  intro pre
  induction pre with
  | nil =>
    intro i hlen _
    have hi : i ≠ 80 := by simp only [List.length_nil] at hlen; omega
    simp only [List.nil_append, List.length_nil, Nat.add_zero]
    unfold titleLoop
    rw [if_neg hi, if_pos rfl]
  | cons r pre ih =>
    intro i hlen hnl
    have hi : i ≠ 80 := by simp only [List.length_cons] at hlen; omega
    have hr : r ≠ '\n' := hnl r (List.mem_cons_self _ _)
    simp only [List.cons_append]
    unfold titleLoop
    rw [if_neg hi, if_neg hr]
    rw [ih (i + 1) (by simp only [List.length_cons] at hlen; omega)
      (fun c hc => hnl c (List.mem_cons_of_mem _ hc))]
    simp only [List.length_cons]
    congr 2
    omega

theorem titleLoop_long (text : String) (runes : List Char) (hlen : 80 < runes.length) :
    ∀ (rest : List Char) (i : Nat), runes.drop i = rest → i ≤ 80 →
      (∀ m, i ≤ m → m < 80 → runes[m]? ≠ some '\n') →
      titleLoop text runes i rest =
        match spaceScan runes 80 with
        | some j => String.mk (runes.take j) ++ "..."
        | none => String.mk (runes.take 77) ++ "..." := by
  intro rest
  induction rest with
  | nil =>
    intro i hdrop hi _
    have := List.drop_eq_nil_iff.mp hdrop
    omega
  | cons r rest ih =>
    intro i hdrop hi hnl
    obtain ⟨hget, hdrop2⟩ := drop_eq_cons_getElem? hdrop
    unfold titleLoop
    by_cases h80 : i = 80
    · rw [if_pos h80, h80]
    · rw [if_neg h80]
      have hlt : i < 80 := Nat.lt_of_le_of_ne hi h80
      have hr : r ≠ '\n' := by
        intro hr
        exact hnl i (Nat.le_refl i) hlt (by rw [hget, hr])
      rw [if_neg hr]
      exact ih (i + 1) hdrop2 hlt (fun m h1 h2 => hnl m (Nat.le_of_succ_le h1) h2)

/-- C3: a text of more than 80 characters with no line break among its first 80
characters and no space at any of the indices 0..80 gets the title made of its
first 77 characters followed by `...`, which is 80 characters long. -/
theorem getWallPostTitle_hard_cut (text : String) (hlen : 80 < text.length)
    (hnl : ∀ i, i < 80 → text.data[i]? ≠ some '\n')
    (hsp : ∀ i, i ≤ 80 → text.data[i]? ≠ some ' ') :
    getWallPostTitle text = String.mk (text.data.take 77) ++ "..." ∧
      (getWallPostTitle text).length = 80 := by
  have hlen2 : 80 < text.data.length := hlen
  have hne : text.data.length ≠ 0 := by omega
  have hres : getWallPostTitle text = String.mk (text.data.take 77) ++ "..." := by
    unfold getWallPostTitle
    simp only [if_neg hne]
    rw [titleLoop_long text text.data hlen2 text.data 0 rfl (Nat.zero_le _)
      (fun m _ h2 => hnl m h2)]
    rw [spaceScan_eq_none (fun m _ hm => hsp m hm)]
  refine ⟨hres, ?_⟩
  rw [hres, String.length_append]
  have h77 : (String.mk (text.data.take 77)).length = 77 := by
    show (text.data.take 77).length = 77
    rw [List.length_take]
    omega
  rw [h77]
  rfl

/-- C3, at ninety times `A`: the title is seventy-seven times `A` and `...`. -/
theorem getWallPostTitle_hard_cut_witness :
    getWallPostTitle ninetyAs = String.mk (List.replicate 77 'A') ++ "..." ∧
      (getWallPostTitle ninetyAs).length = 80 :=
  getWallPostTitle_hard_cut ninetyAs (by decide) (by decide) (by decide)

/-- C2 (as amended): a text of more than 80 characters with no line break among
its first 80 characters and a space at one of the indices 1..80 gets the title
made of the characters before the last such space, followed by `...`. -/
theorem getWallPostTitle_cut_at_last_space (text : String) (j : Nat)
    (hlen : 80 < text.length) (hnl : ∀ i, i < 80 → text.data[i]? ≠ some '\n')
    (hpos : 0 < j) (hj : j ≤ 80) (hsp : text.data[j]? = some ' ')
    (hlast : ∀ m, j < m → m ≤ 80 → text.data[m]? ≠ some ' ') :
    getWallPostTitle text = String.mk (text.data.take j) ++ "..." := by
  have hlen2 : 80 < text.data.length := hlen
  have hne : text.data.length ≠ 0 := by omega
  unfold getWallPostTitle
  simp only [if_neg hne]
  rw [titleLoop_long text text.data hlen2 text.data 0 rfl (Nat.zero_le _)
    (fun m _ h2 => hnl m h2)]
  rw [spaceScan_eq_some hpos hj hsp hlast]

/-- C2, at `"hello world "` repeated: the cut is at the space at index 77. -/
theorem getWallPostTitle_cut_at_last_space_witness :
    getWallPostTitle helloWorldText =
      "hello world hello world hello world hello world hello world hello world hello"
        ++ "..." :=
  getWallPostTitle_cut_at_last_space helloWorldText 77 (by decide) (by decide) (by decide)
    (by decide) (by decide) (fun m h1 h2 => by interval_cases m <;> decide)

/-- C2 as stated fails when the only space at the indices 0..80 is at index 0:
the text meets every condition of the claim with 0 as the index of its last
space, yet the title is not `...` alone but the first 77 characters and `...`. -/
theorem getWallPostTitle_leading_space_counterexample :
    80 < leadingSpaceText.length ∧
      (∀ i, i < 80 → leadingSpaceText.data[i]? ≠ some '\n') ∧
      leadingSpaceText.data[0]? = some ' ' ∧
      (∀ m, m ≤ 80 → 0 < m → leadingSpaceText.data[m]? ≠ some ' ') ∧
      getWallPostTitle leadingSpaceText ≠ String.mk (leadingSpaceText.data.take 0) ++ "..." ∧
      getWallPostTitle leadingSpaceText = String.mk (' ' :: List.replicate 76 'A') ++ "..." := by
  refine ⟨by decide, by decide, by decide, by decide, by decide, by decide⟩

/-- C4: when the first line break of a text is at an index `i < 80`, the title is
exactly the first `i` characters of the text, with nothing appended; a text that
starts with a line break gets the empty title. -/
theorem getWallPostTitle_line_break (text : String) (i : Nat) (hi : i < 80)
    (hbr : text.data[i]? = some '\n') (hfirst : ∀ m, m < i → text.data[m]? ≠ some '\n') :
    getWallPostTitle text = String.mk (text.data.take i) ∧
      (i = 0 → getWallPostTitle text = "") := by
  have hilt : i < text.data.length := by
    rcases Nat.lt_or_ge i text.data.length with h | h
    · exact h
    · rw [List.getElem?_eq_none h] at hbr; cases hbr
  have hne : text.data.length ≠ 0 := by omega
  have hsplit : text.data = text.data.take i ++ '\n' :: text.data.drop (i + 1) := by
    have hget : text.data[i] = '\n' := by
      rw [List.getElem?_eq_getElem hilt] at hbr
      exact Option.some.inj hbr
    conv_lhs => rw [← List.take_append_drop i text.data]
    rw [List.drop_eq_getElem_cons hilt, hget]
  have htake : (text.data.take i).length = i := by
    rw [List.length_take]; omega
  have hpre : ∀ c ∈ text.data.take i, c ≠ '\n' := by
    intro c hc hcn
    obtain ⟨m, hm, hmc⟩ := List.getElem_of_mem hc
    have hmi : m < i := by rw [htake] at hm; exact hm
    apply hfirst m hmi
    rw [List.getElem_take] at hmc
    rw [List.getElem?_eq_getElem (by omega), hmc, hcn]
  have hres : getWallPostTitle text = String.mk (text.data.take i) := by
    unfold getWallPostTitle
    simp only [if_neg hne]
    have := titleLoop_break text text.data (text.data.drop (i + 1)) (text.data.take i) 0
      (by rw [htake]; omega) hpre
    rw [← hsplit] at this
    rw [this, htake, Nat.zero_add]
  refine ⟨hres, fun h0 => ?_⟩
  rw [hres, h0]
  rfl

/-- C4, at a two-line text: the title is the first line. -/
theorem getWallPostTitle_line_break_witness :
    getWallPostTitle twoLineText = "first line" ∧
      (10 = 0 → getWallPostTitle twoLineText = "") :=
  getWallPostTitle_line_break twoLineText 10 (by decide) (by decide) (by decide)

/-- C5: a text of at most 80 characters without a line break, the empty text
included, is its own title. -/
theorem getWallPostTitle_short_text (text : String) (hlen : text.length ≤ 80)
    (hnl : ∀ c ∈ text.data, c ≠ '\n') : getWallPostTitle text = text := by
  unfold getWallPostTitle
  by_cases h0 : text.data.length = 0
  · simp only [if_pos h0]
  · simp only [if_neg h0]
    exact titleLoop_short text text.data text.data 0 (by rw [Nat.zero_add]; exact hlen) hnl

/-- C5, at the empty text and at a one-line text. -/
theorem getWallPostTitle_short_text_witness :
    getWallPostTitle "" = "" ∧ getWallPostTitle "first line" = "first line" :=
  ⟨getWallPostTitle_short_text "" (by decide) (by decide),
    getWallPostTitle_short_text "first line" (by decide) (by decide)⟩

/-! ### `getMaxSizePhotoURL` -/

/-- C1: on the sizes of the specification's example the code returns `c`, the
last size with positive width and height, whereas the scan with a running best
returns `b`; the running best is never updated in the code. -/
theorem getMaxSizePhotoURL_sample :
    getMaxSizePhotoURL ⟨sampleSizes⟩ = "c" ∧ strictDominanceScan 0 0 "" sampleSizes = "b" ∧
      getMaxSizePhotoURL ⟨sampleSizes⟩ ≠ strictDominanceScan 0 0 "" sampleSizes := by
  refine ⟨by decide, by decide, by decide⟩

/-! ### `ComposeRSS` -/

theorem join_snoc (l : List String) (x : String) :
    String.join (l ++ [x]) = String.join l ++ x := by
  apply String.ext
  simp [String.join_eq, String.data_append]

theorem replaceLoop_newline (new : List Char) (cs : List Char) :
    replaceLoop ['\n'] new 0 cs = cs.flatMap (fun c => if c = '\n' then new else [c]) := by
  induction cs with
  | nil => rfl
  | cons c cs ih =>
    unfold replaceLoop
    by_cases hc : c = '\n'
    · subst hc
      simp only [List.isPrefixOf, beq_self_eq_true, Bool.and_self, if_true, List.length_singleton,
        Nat.sub_self, ih, List.flatMap_cons, Bool.true_and]
    · have hpre : List.isPrefixOf ['\n'] (c :: cs) = false := by
        simp only [List.isPrefixOf, Bool.and_true, beq_eq_false_iff_ne, ne_eq]
        exact fun h => hc h.symm
      simp only [hpre, Bool.false_eq_true, if_false, ih, List.flatMap_cons, if_neg hc,
        List.singleton_append]

theorem stringsReplaceAll_newline (s : String) : stringsReplaceAll s "\n" "<br>" = brText s := by
  unfold stringsReplaceAll brText
  have h1 : ("\n" : String).data = ['\n'] := rfl
  have h2 : ("<br>" : String).data = ['<', 'b', 'r', '>'] := rfl
  rw [h1, h2, if_neg (by simp), replaceLoop_newline]

theorem attachments_foldl (atts : List Attachment) (item : Item) :
    atts.foldl
      (fun (rssItem : Item) attachment =>
        if attachment.«Type» ≠ "photo" then rssItem
        else { rssItem with
          Description := "<img src=\"" ++ getMaxSizePhotoURL attachment.Photo ++ "\">\n"
            ++ rssItem.Description })
      item =
    { item with
      Description := String.join (((atts.filter (fun a => a.«Type» = "photo")).reverse).map
        photoMarkup) ++ item.Description } := by
  induction atts generalizing item with
  | nil =>
    simp only [List.foldl_nil, List.filter_nil, List.reverse_nil, List.map_nil]
    cases item
    simp [String.join]
  | cons a atts ih =>
    simp only [List.foldl_cons]
    rw [ih]
    by_cases ha : a.«Type» = "photo"
    · have hf : decide (a.«Type» = "photo") = true := decide_eq_true ha
      have hne : ¬ a.«Type» ≠ "photo" := fun h => h ha
      simp only [List.filter_cons, hf, if_true, List.reverse_cons, List.map_append,
        List.map_cons, List.map_nil, join_snoc, if_neg hne]
      simp only [photoMarkup, String.append_assoc]
    · simp [ha, List.filter_cons]

theorem parseWallPostAttachments_eq (item : Item) (post : WallPost) :
    parseWallPostAttachments item post =
      { item with
        Description :=
          String.join (((post.Attachments.filter (fun a => a.«Type» = "photo")).reverse).map
            photoMarkup) ++ item.Description } := by
  unfold parseWallPostAttachments
  split
  · exact attachments_foldl post.Attachments item
  · rename_i h
    have hnil : post.Attachments = [] := by
      cases hatt : post.Attachments with
      | nil => rfl
      | cons a as => rw [hatt] at h; simp at h
    rw [hnil]
    exact attachments_foldl [] item

theorem parseWallPosts_loaded (env : TimeEnv) (loc : Location)
    (hloc : env.LoadLocation "Asia/Yekaterinburg" = .ok loc) :
    ∀ (posts : List WallPost) (r : RSS),
      parseWallPosts env r posts =
        .ok { r with Channel := { r.Channel with
                Items := r.Channel.Items ++ posts.map (expectedItem env loc) } } := by
  intro posts
  induction posts with
  | nil => intro r; simp [parseWallPosts]
  | cons post rest ih =>
    intro r
    unfold parseWallPosts
    simp only [getDateInReadableFormat, hloc]
    rw [ih]
    simp only [parseWallPostAttachments_eq, stringsReplaceAll_newline, List.map_cons,
      List.append_assoc, List.singleton_append]
    rfl

theorem parseWallPosts_unloaded (env : TimeEnv) (err : Error)
    (herr : env.LoadLocation "Asia/Yekaterinburg" = .error err) (r : RSS) (post : WallPost)
    (rest : List WallPost) : parseWallPosts env r (post :: rest) = .error err := by
  unfold parseWallPosts
  simp only [getDateInReadableFormat, herr]

theorem ComposeRSS_loaded (env : TimeEnv) (loc : Location)
    (hloc : env.LoadLocation "Asia/Yekaterinburg" = .ok loc) (community : Community)
    (posts : List WallPost) :
    ∃ r, ComposeRSS env community posts = .ok r ∧
      r.Channel.Items = posts.map (expectedItem env loc) := by
  unfold ComposeRSS
  simp only [parseWallPosts_loaded env loc hloc]
  exact ⟨_, rfl, by simp [parseCommunityInfo, RSS.zero]⟩

/-- C6: when the time zone loads, the description of the item of every post is
the image references of its photo attachments, the last attachment first, each
followed by a newline, and then the post text with every newline replaced by
`<br>`; attachments of another type add nothing. -/
theorem ComposeRSS_descriptions (env : TimeEnv) (loc : Location)
    (hloc : env.LoadLocation "Asia/Yekaterinburg" = .ok loc) (community : Community)
    (posts : List WallPost) :
    ∃ r, ComposeRSS env community posts = .ok r ∧
      r.Channel.Items.map (fun item => item.Description) =
        posts.map (fun post =>
          String.join (((post.Attachments.filter (fun a => a.«Type» = "photo")).reverse).map
            (fun a => "<img src=\"" ++ getMaxSizePhotoURL a.Photo ++ "\">\n"))
          ++ String.mk (post.Text.data.flatMap
              (fun c => if c = '\n' then ['<', 'b', 'r', '>'] else [c]))) := by
  obtain ⟨r, hr, hitems⟩ := ComposeRSS_loaded env loc hloc community posts
  refine ⟨r, hr, ?_⟩
  rw [hitems, List.map_map]
  rfl

/-- C6, at a post with a photo, a link and a second photo: the second photo
comes first, the link adds nothing, the newline of the text becomes `<br>`. -/
theorem ComposeRSS_descriptions_witness :
    ∃ r, ComposeRSS sampleEnv sampleCommunity [samplePost] = .ok r ∧
      r.Channel.Items.map (fun item => item.Description) =
        ["<img src=\"p2\">\n<img src=\"p1\">\nfirst line<br>second line"] :=
  ComposeRSS_descriptions sampleEnv ⟨"Asia/Yekaterinburg"⟩ rfl sampleCommunity [samplePost]

/-- C7: when the time zone loads, `ComposeRSS` returns a feed with one item per
post, in the order of the posts: the item at index `i` has the title computed
from the text of the post at index `i` and the link `https://vk.com/wall`, the
owner in decimal, `_`, the post number in decimal. -/
theorem ComposeRSS_items_in_post_order (env : TimeEnv) (loc : Location)
    (hloc : env.LoadLocation "Asia/Yekaterinburg" = .ok loc) (community : Community)
    (posts : List WallPost) :
    ∃ r, ComposeRSS env community posts = .ok r ∧
      r.Channel.Items.length = posts.length ∧
      ∀ (i : Nat) (post : WallPost), posts[i]? = some post →
        ∃ item, r.Channel.Items[i]? = some item ∧
          item.Title = getWallPostTitle post.Text ∧
          item.Link = "https://vk.com/wall" ++ toString post.OwnerID ++ "_" ++ toString post.ID ∧
          item.Date = env.Format loc post.Date "Mon, Jan 2 2006 15:04:05 -0700" := by
  obtain ⟨r, hr, hitems⟩ := ComposeRSS_loaded env loc hloc community posts
  refine ⟨r, hr, by rw [hitems, List.length_map], ?_⟩
  intro i post hpost
  refine ⟨expectedItem env loc post, ?_, rfl, rfl, rfl⟩
  rw [hitems, List.getElem?_map, hpost]
  rfl

/-- C7, at two posts: two items, in the order of the posts, with their links. -/
theorem ComposeRSS_items_in_post_order_witness :
    (∃ r, ComposeRSS sampleEnv sampleCommunity [samplePost, plainPost] = .ok r ∧
      r.Channel.Items.length = 2 ∧
      ∀ (i : Nat) (post : WallPost), [samplePost, plainPost][i]? = some post →
        ∃ item, r.Channel.Items[i]? = some item ∧
          item.Title = getWallPostTitle post.Text ∧
          item.Link = "https://vk.com/wall" ++ toString post.OwnerID ++ "_" ++ toString post.ID ∧
          item.Date = sampleEnv.Format ⟨"Asia/Yekaterinburg"⟩ post.Date
            "Mon, Jan 2 2006 15:04:05 -0700") ∧
      expectedLink samplePost = "https://vk.com/wall-12345_678" :=
  ⟨ComposeRSS_items_in_post_order sampleEnv ⟨"Asia/Yekaterinburg"⟩ rfl sampleCommunity
    [samplePost, plainPost], by decide⟩

/-- C8 (as amended): when the time zone `Asia/Yekaterinburg` cannot be loaded and
there is at least one post, `ComposeRSS` fails with the error of the load; on
the empty list of posts it returns, whatever the time-zone database, the feed
with the channel fields of the community (name, `https://vk.com/` and the
screen name, description with every newline replaced by `<br>`) and no item. -/
theorem ComposeRSS_fails_without_zone (env : TimeEnv) (community : Community) :
    (∀ (err : Error) (posts : List WallPost),
        env.LoadLocation "Asia/Yekaterinburg" = .error err → posts ≠ [] →
        ComposeRSS env community posts = .error err) ∧
      ComposeRSS env community [] =
        .ok ⟨⟨community.Name, "https://vk.com/" ++ community.ScreenName,
          brText community.Description, []⟩⟩ := by
  constructor
  · intro err posts herr hposts
    cases posts with
    | nil => exact absurd rfl hposts
    | cons post rest =>
      unfold ComposeRSS
      simp only [parseWallPosts_unloaded env err herr]
  · unfold ComposeRSS
    simp only [parseWallPosts, parseCommunityInfo, RSS.zero, stringsReplaceAll_newline]

/-- C8, without a time-zone database: one post makes `ComposeRSS` fail, no post
gives the feed of the community without items. -/
theorem ComposeRSS_fails_without_zone_witness :
    ComposeRSS failingEnv sampleCommunity [plainPost] =
        .error "unknown time zone Asia/Yekaterinburg" ∧
      ComposeRSS failingEnv sampleCommunity [] =
        .ok ⟨⟨"Club", "https://vk.com/club1", "line one<br>line two", []⟩⟩ :=
  ⟨(ComposeRSS_fails_without_zone failingEnv sampleCommunity).1
      "unknown time zone Asia/Yekaterinburg" [plainPost] rfl (by decide),
    (ComposeRSS_fails_without_zone failingEnv sampleCommunity).2⟩

/-- C8 as stated fails on the empty list of posts: the time zone cannot be
loaded, yet `ComposeRSS` returns a feed (with the channel fields and no item)
and no error. -/
theorem ComposeRSS_empty_posts_counterexample :
    failingEnv.LoadLocation "Asia/Yekaterinburg" = .error "unknown time zone Asia/Yekaterinburg" ∧
      ComposeRSS failingEnv sampleCommunity [] =
        .ok ⟨⟨"Club", "https://vk.com/club1", "line one<br>line two", []⟩⟩ :=
  ⟨rfl, rfl⟩

/-! ### The tag locator -/

theorem stringsContains_iff (s k : String) :
    stringsContains s k = true ↔ k.data <:+: s.data := by
  unfold stringsContains
  rw [List.any_eq_true, List.infix_iff_prefix_suffix]
  constructor
  · rintro ⟨t, ht, hp⟩
    exact ⟨t, List.isPrefixOf_iff_prefix.mp hp, (List.mem_tails t s.data).mp ht⟩
  · rintro ⟨t, hp, ht⟩
    exact ⟨t, (List.mem_tails t s.data).mpr ht, List.isPrefixOf_iff_prefix.mpr hp⟩

theorem getAttributeLoop_true (key : String) :
    ∀ (attrs : List Attribute) (v : String), getAttributeLoop key attrs = (v, true) ↔
      ∃ pre a post, attrs = pre ++ a :: post ∧ (∀ b ∈ pre, b.Key ≠ key) ∧ a.Key = key ∧
        a.Val = v := by
  intro attrs
  induction attrs with
  | nil =>
    intro v
    simp [getAttributeLoop]
  | cons attr rest ih =>
    intro v
    unfold getAttributeLoop
    by_cases hk : attr.Key = key
    · rw [if_pos hk]
      constructor
      · intro h
        injection h with hv _
        exact ⟨[], attr, rest, rfl, fun b hb => absurd hb (List.not_mem_nil b), hk, hv⟩
      · rintro ⟨pre, a, post, heq, hpre, ha, hv⟩
        cases pre with
        | nil =>
          simp only [List.nil_append, List.cons.injEq] at heq
          rw [heq.1, hv]
        | cons b pre =>
          simp only [List.cons_append, List.cons.injEq] at heq
          exact absurd (heq.1 ▸ hk) (hpre b (List.mem_cons_self _ _))
    · rw [if_neg hk, ih v]
      constructor
      · rintro ⟨pre, a, post, heq, hpre, ha, hv⟩
        refine ⟨attr :: pre, a, post, by rw [heq]; rfl, ?_, ha, hv⟩
        intro b hb
        rcases List.mem_cons.mp hb with h | h
        · rw [h]; exact hk
        · exact hpre b h
      · rintro ⟨pre, a, post, heq, hpre, ha, hv⟩
        cases pre with
        | nil =>
          simp only [List.nil_append, List.cons.injEq] at heq
          exact absurd (heq.1 ▸ ha) hk
        | cons b pre =>
          simp only [List.cons_append, List.cons.injEq] at heq
          exact ⟨pre, a, post, heq.2, fun x hx => hpre x (List.mem_cons_of_mem _ hx), ha, hv⟩

theorem checkKey_some (n : Node) (k : String) :
    ∃ b, checkKey (some n) k = .ok b ∧ (b = true ↔ ClassContains k n) := by
  unfold checkKey ClassContains
  simp only
  by_cases ht : n.«Type» = NodeType.ElementNode
  · rw [if_pos ht]
    cases hg : getAttribute n "class" with
    | mk v ok =>
      simp only
      cases ok with
      | false =>
        refine ⟨false, by simp, ?_⟩
        simp only [Bool.false_eq_true, false_iff, not_and, not_exists]
        intro _ pre a post heq hpre ha hinf
        have := (getAttributeLoop_true "class" n.Attr a.Val).mpr ⟨pre, a, post, heq, hpre, ha, rfl⟩
        unfold getAttribute at hg
        rw [hg] at this
        cases this
      | true =>
        unfold getAttribute at hg
        obtain ⟨pre, a, post, heq, hpre, ha, hv⟩ := (getAttributeLoop_true "class" n.Attr v).mp hg
        by_cases hc : stringsContains v k = true
        · refine ⟨true, by simp [hc], ?_⟩
          simp only [true_iff]
          refine ⟨ht, pre, a, post, heq, hpre, ha, ?_⟩
          rw [hv]
          exact (stringsContains_iff v k).mp hc
        · refine ⟨false, by simp [hc], ?_⟩
          simp only [Bool.false_eq_true, false_iff, not_and, not_exists]
          intro _ pre2 a2 post2 heq2 hpre2 ha2 hinf
          have h2 := (getAttributeLoop_true "class" n.Attr a2.Val).mpr
            ⟨pre2, a2, post2, heq2, hpre2, ha2, rfl⟩
          rw [hg] at h2
          injection h2 with hv2 _
          apply hc
          rw [hv2]
          exact (stringsContains_iff a2.Val k).mpr hinf
  · rw [if_neg ht]
    exact ⟨false, rfl, by simp [ht]⟩

theorem FirstMatch_cons_hit (k : String) (n : Node) (l : List Node)
    (h : ClassContains k n) : FirstMatch k (n :: l) (some n) :=
  ⟨[], l, rfl, fun x hx => absurd hx (List.not_mem_nil x), h⟩

theorem FirstMatch_cons_miss (k : String) (n : Node) (l : List Node) (r : Option Node)
    (h : ¬ ClassContains k n) (hl : FirstMatch k l r) : FirstMatch k (n :: l) r := by
  cases r with
  | none =>
    intro x hx
    rcases List.mem_cons.mp hx with hx | hx
    · rw [hx]; exact h
    · exact hl x hx
  | some m =>
    obtain ⟨pre, post, heq, hpre, hm⟩ := hl
    refine ⟨n :: pre, post, by rw [heq]; rfl, ?_, hm⟩
    intro x hx
    rcases List.mem_cons.mp hx with hx | hx
    · rw [hx]; exact h
    · exact hpre x hx

theorem FirstMatch_append_some (k : String) (l1 l2 : List Node) (m : Node)
    (h : FirstMatch k l1 (some m)) : FirstMatch k (l1 ++ l2) (some m) := by
  obtain ⟨pre, post, heq, hpre, hm⟩ := h
  exact ⟨pre, post ++ l2, by rw [heq]; simp, hpre, hm⟩

theorem FirstMatch_append_none (k : String) (l1 l2 : List Node) (r : Option Node)
    (h1 : FirstMatch k l1 none) (h2 : FirstMatch k l2 r) : FirstMatch k (l1 ++ l2) r := by
  cases r with
  | none =>
    intro x hx
    rcases List.mem_append.mp hx with hx | hx
    · exact h1 x hx
    · exact h2 x hx
  | some m =>
    obtain ⟨pre, post, heq, hpre, hm⟩ := h2
    refine ⟨l1 ++ pre, post, by rw [heq]; simp, ?_, hm⟩
    intro x hx
    rcases List.mem_append.mp hx with hx | hx
    · exact h1 x hx
    · exact hpre x hx

mutual
theorem traverseNode_firstMatch (k : String) :
    ∀ n : Node, ∃ r, traverseNode k n = .ok r ∧ FirstMatch k n.preorder r
  | .mk t d a children => by
    obtain ⟨b, hb, hiff⟩ := checkKey_some (.mk t d a children) k
    obtain ⟨rc, hrc, hfm⟩ := traverseChildren_firstMatch k children
    rw [traverseNode, hb, Node.preorder]
    cases b with
    | true => exact ⟨_, rfl, FirstMatch_cons_hit k _ _ (hiff.mp rfl)⟩
    | false =>
      refine ⟨rc, hrc, FirstMatch_cons_miss k _ _ rc ?_ hfm⟩
      intro hcc
      exact Bool.false_ne_true (hiff.mpr hcc)
theorem traverseChildren_firstMatch (k : String) :
    ∀ cs : List Node, ∃ r, traverseChildren k cs = .ok r ∧ FirstMatch k (preorderList cs) r
  | [] => ⟨none, by rw [traverseChildren], fun x hx => by
      rw [preorderList] at hx; exact absurd hx (List.not_mem_nil x)⟩
  | c :: rest => by
    obtain ⟨r1, hr1, hfm1⟩ := traverseNode_firstMatch k c
    obtain ⟨r2, hr2, hfm2⟩ := traverseChildren_firstMatch k rest
    rw [traverseChildren, hr1, preorderList]
    cases r1 with
    | some m => exact ⟨some m, rfl, FirstMatch_append_some k _ _ m hfm1⟩
    | none => exact ⟨r2, hr2, FirstMatch_append_none k _ _ r2 hfm1 hfm2⟩
end

/-- C9: on a document tree with a non-nil root, `getElementByClass` (and so
`findTag`) does not fault and returns the first node, in pre-order depth-first
order, that is an element whose class attribute value contains `k` as a plain
substring; it returns not-found exactly when no node of the tree is such an
element. -/
theorem getElementByClass_first_in_preorder (n : Node) (k : String) :
    ∃ r, getElementByClass (some n) k = .ok r ∧ findTag k (some n) = .ok r ∧
      (∀ m, r = some m → m.«Type» = NodeType.ElementNode ∧
        ∃ pre post, n.preorder = pre ++ m :: post ∧ (∀ x ∈ pre, ¬ ClassContains k x) ∧
          ClassContains k m) ∧
      (r = none ↔ ∀ x ∈ n.preorder, ¬ ClassContains k x) := by
  obtain ⟨r, hr, hfm⟩ := traverseNode_firstMatch k n
  refine ⟨r, hr, hr, ?_, ?_⟩
  · intro m hm
    subst hm
    obtain ⟨pre, post, heq, hpre, hcc⟩ := hfm
    exact ⟨hcc.1, pre, post, heq, hpre, hcc⟩
  · constructor
    · intro hnone
      subst hnone
      exact hfm
    · intro hall
      cases r with
      | none => rfl
      | some m =>
        obtain ⟨pre, post, heq, _, hcc⟩ := hfm
        exact absurd hcc (hall m (by rw [heq]; simp))

/-- The locator on the sample document: `foo` is found in the class
`foobar baz` of the `span`, the first element in pre-order whose class contains
it; the text node before it is passed over although it carries the class `foo`;
a class that occurs nowhere gives not-found. -/
theorem findTag_sampleDoc :
    findTag "foo" (some sampleDoc) =
        .ok (some (.mk .ElementNode "span" [⟨"", "id", "x"⟩, ⟨"", "class", "foobar baz"⟩] [])) ∧
      findTag "Foo" (some sampleDoc) = .ok none :=
  ⟨rfl, rfl⟩

/-- C10 (as amended): locating in a nil root faults, whatever the class
substring: `checkKey` reads the type of the node through the nil pointer. -/
theorem findTag_nil_root_faults (k : String) :
    findTag k none = .error Fault.nilDereference ∧
      getElementByClass none k = .error Fault.nilDereference ∧
      traverse none k = .error Fault.nilDereference :=
  ⟨rfl, rfl, rfl⟩

/-- C10 as stated fails: with a nil root `findTag` does not return not-found. -/
theorem findTag_nil_root_counterexample :
    findTag "FilterBar" none ≠ .ok none ∧
      getElementByClass none "FilterBar" ≠ .ok none := by
  constructor <;> intro h <;> cases h

/-! ### `getMaxSizePhotoURL`, as the code has it -/

theorem maxSizeLoop_last_positive (sizes : List Size) :
    ∀ url : String, maxSizeLoop 0 0 url sizes =
      match (sizes.filter (fun s => decide (s.Width > 0 ∧ s.Height > 0))).getLast? with
      | some s => s.URL
      | none => url := by
  induction sizes with
  | nil => intro url; rfl
  | cons size rest ih =>
    intro url
    unfold maxSizeLoop
    by_cases h : size.Width > 0 ∧ size.Height > 0
    · rw [if_pos h, ih, List.filter_cons_of_pos (by simpa using h), List.getLast?_cons]
      cases (rest.filter (fun s => decide (s.Width > 0 ∧ s.Height > 0))).getLast? <;> rfl
    · rw [if_neg h, ih, List.filter_cons_of_neg (by simpa using h)]

/-- C19: `getMaxSizePhotoURL` returns the URL of the last size, in list order,
whose width and height are both greater than 0, and the empty string when no
size has both dimensions positive; no size is compared with another. -/
theorem getMaxSizePhotoURL_last_positive (photo : PhotoAttachment) :
    getMaxSizePhotoURL photo =
      match (photo.Sizes.filter (fun s => decide (s.Width > 0 ∧ s.Height > 0))).getLast? with
      | some s => s.URL
      | none => "" :=
  maxSizeLoop_last_positive photo.Sizes ""

/-! ### Index, last index and slices -/

theorem isPrefixOf_singleton (c0 c : Char) (cs : List Char) :
    List.isPrefixOf [c0] (c :: cs) = decide (c0 = c) := by
  by_cases h : c0 = c <;> simp [List.isPrefixOf, h]

theorem indexLoop_singleton_found (c0 : Char) (q : List Char) :
    ∀ (p : List Char) (i : Nat), c0 ∉ p →
      indexLoop [c0] i (p ++ c0 :: q) = ((i + p.length : Nat) : Int) := by
  intro p
  induction p with
  | nil =>
    intro i _
    simp [indexLoop, isPrefixOf_singleton]
  | cons c p ih =>
    intro i hp
    have hc : c0 ≠ c := fun h => hp (by rw [h]; exact List.mem_cons_self _ _)
    have hp2 : c0 ∉ p := fun h => hp (List.mem_cons_of_mem _ h)
    rw [List.cons_append, indexLoop, isPrefixOf_singleton]
    simp only [decide_eq_true_eq, if_neg hc]
    rw [ih (i + 1) hp2]
    simp only [List.length_cons]
    congr 1
    omega

theorem indexLoop_singleton_absent (c0 : Char) :
    ∀ (l : List Char) (i : Nat), c0 ∉ l → indexLoop [c0] i l = -1 := by
  intro l
  induction l with
  | nil => intro i _; simp [indexLoop]
  | cons c l ih =>
    intro i hl
    have hc : c0 ≠ c := fun h => hl (by rw [h]; exact List.mem_cons_self _ _)
    have hl2 : c0 ∉ l := fun h => hl (List.mem_cons_of_mem _ h)
    simp only [indexLoop, isPrefixOf_singleton, decide_eq_true_eq, if_neg hc]
    exact ih (i + 1) hl2

theorem lastIndexLoop_singleton_absent (c0 : Char) :
    ∀ (l : List Char) (i : Nat) (best : Int), c0 ∉ l → lastIndexLoop [c0] i l best = best := by
  intro l
  induction l with
  | nil => intro i best _; simp [lastIndexLoop]
  | cons c l ih =>
    intro i best hl
    have hc : c0 ≠ c := fun h => hl (by rw [h]; exact List.mem_cons_self _ _)
    have hl2 : c0 ∉ l := fun h => hl (List.mem_cons_of_mem _ h)
    simp only [lastIndexLoop, isPrefixOf_singleton, decide_eq_true_eq, if_neg hc]
    exact ih (i + 1) best hl2

theorem lastIndexLoop_singleton_found (c0 : Char) (r : List Char) (hr : c0 ∉ r) :
    ∀ (p : List Char) (i : Nat) (best : Int),
      lastIndexLoop [c0] i (p ++ c0 :: r) best = ((i + p.length : Nat) : Int) := by
  intro p
  induction p with
  | nil =>
    intro i best
    simp only [List.nil_append, lastIndexLoop, isPrefixOf_singleton, decide_True, if_true,
      List.length_nil, Nat.add_zero]
    exact lastIndexLoop_singleton_absent c0 r (i + 1) i hr
  | cons c p ih =>
    intro i best
    rw [List.cons_append, lastIndexLoop]
    rw [ih (i + 1)]
    simp only [List.length_cons]
    congr 1
    omega

theorem exists_last_occurrence (c0 : Char) :
    ∀ l : List Char, c0 ∈ l → ∃ p r, l = p ++ c0 :: r ∧ c0 ∉ r := by
  intro l
  induction l with
  | nil => intro h; exact absurd h (List.not_mem_nil _)
  | cons c l ih =>
    intro h
    by_cases hl : c0 ∈ l
    · obtain ⟨p, r, heq, hr⟩ := ih hl
      exact ⟨c :: p, r, by rw [heq]; rfl, hr⟩
    · rcases List.mem_cons.mp h with hc | hc
      · exact ⟨[], l, by rw [hc]; rfl, hl⟩
      · exact absurd hc hl

theorem sliceTo_take (s : String) (n : Nat) (hn : n ≤ s.data.length) :
    sliceTo s (n : Int) = .ok (String.mk (s.data.take n)) := by
  unfold sliceTo
  have h : (0 : Int) ≤ (n : Int) ∧ (n : Int) ≤ (s.length : Int) :=
    ⟨Int.ofNat_nonneg n, Int.ofNat_le.mpr hn⟩
  rw [if_pos h, Int.toNat_ofNat]

theorem sliceFrom_drop (s : String) (n : Nat) (hn : n ≤ s.data.length) :
    sliceFrom s (n : Int) = .ok (String.mk (s.data.drop n)) := by
  unfold sliceFrom
  have h : (0 : Int) ≤ (n : Int) ∧ (n : Int) ≤ (s.length : Int) :=
    ⟨Int.ofNat_nonneg n, Int.ofNat_le.mpr hn⟩
  rw [if_pos h, Int.toNat_ofNat]

theorem sliceTo_negative (s : String) : sliceTo s (-1) = .error .sliceBoundsOutOfRange := by
  unfold sliceTo
  rw [if_neg (by omega)]

theorem stringsIndex_found (s : String) (c0 : Char) (p q : List Char)
    (hs : s.data = p ++ c0 :: q) (hp : c0 ∉ p) :
    stringsIndex s (String.mk [c0]) = (p.length : Int) := by
  unfold stringsIndex
  rw [hs, indexLoop_singleton_found c0 q p 0 hp, Nat.zero_add]

theorem stringsIndex_absent (s : String) (c0 : Char) (hs : c0 ∉ s.data) :
    stringsIndex s (String.mk [c0]) = -1 := by
  unfold stringsIndex
  exact indexLoop_singleton_absent c0 s.data 0 hs

/-- The two cuts of the extractors: after the first `>` and before the next
`<`. -/
theorem cut_between_delimiters (text : String) (p d q : List Char)
    (hs : text.data = p ++ '>' :: (d ++ '<' :: q)) (hp : '>' ∉ p) (hd : '<' ∉ d) :
    sliceFrom text (stringsIndex text ">" + 1) = .ok (String.mk (d ++ '<' :: q)) ∧
      sliceTo (String.mk (d ++ '<' :: q)) (stringsIndex (String.mk (d ++ '<' :: q)) "<") =
        .ok (String.mk d) := by
  constructor
  · have h1 : stringsIndex text ">" = (p.length : Int) := stringsIndex_found text '>' p _ hs hp
    rw [h1]
    have h2 : ((p.length : Int) + 1) = ((p.length + 1 : Nat) : Int) := by simp
    rw [h2, sliceFrom_drop text (p.length + 1) (by rw [hs]; simp)]
    rw [hs]
    simp
  · have h1 : stringsIndex (String.mk (d ++ '<' :: q)) "<" = (d.length : Int) :=
      stringsIndex_found _ '<' d q rfl hd
    rw [h1, sliceTo_take _ d.length (by simp)]
    simp

/-! ### The field extractors -/

theorem exists_between_delimiters (l : List Char)
    (h : ∃ i j : Nat, i < j ∧ l[i]? = some '>' ∧ l[j]? = some '<') :
    ∃ p d q, l = p ++ '>' :: (d ++ '<' :: q) ∧ '>' ∉ p ∧ '<' ∉ d := by
  obtain ⟨i, j, hij, hi, hj⟩ := h
  have hmem : '>' ∈ l := List.getElem?_mem hi
  obtain ⟨p, rest, heq, hp⟩ := List.eq_append_cons_of_mem hmem
  have hpi : p.length ≤ i := by
    rcases Nat.lt_or_ge i p.length with hlt | hge
    · exfalso
      rw [heq, List.getElem?_append_left hlt] at hi
      exact hp (List.getElem?_mem hi)
    · exact hge
  have hj2 : rest[j - p.length - 1]? = some '<' := by
    rw [heq, List.getElem?_append_right (by omega)] at hj
    have hjp : j - p.length = (j - p.length - 1) + 1 := by omega
    rw [hjp, List.getElem?_cons_succ] at hj
    exact hj
  obtain ⟨d, q, heq2, hd⟩ := List.eq_append_cons_of_mem (List.getElem?_mem hj2)
  exact ⟨p, d, q, by rw [heq, heq2], hp, hd⟩

/-- C16: when the description container is located and its rendered markup `m`
has a `>` followed later by a `<`, `extractDescription` sets Description to the
characters strictly between the first `>` of `m` and the first `<` after it; an
empty run gives the empty string, not a fault. -/
theorem extractDescription_between_delimiters (env : WebEnv) (a : Article) (doc tag : Node)
    (m : String) (htag : findTag "Article__Headline__Desc" (some doc) = .ok (some tag))
    (hm : env.Render tag = .ok m)
    (hdelim : ∃ i j : Nat, i < j ∧ m.data[i]? = some '>' ∧ m.data[j]? = some '<') :
    ∃ p d q, m.data = p ++ '>' :: (d ++ '<' :: q) ∧ '>' ∉ p ∧ '<' ∉ d ∧
      extractDescription env a (some doc) = .ok { a with Description := String.mk d } ∧
      (d = [] → extractDescription env a (some doc) = .ok { a with Description := "" }) := by
  obtain ⟨p, d, q, hs, hp, hd⟩ := exists_between_delimiters m.data hdelim
  obtain ⟨h1, h2⟩ := cut_between_delimiters m p d q hs hp hd
  have hres : extractDescription env a (some doc) = .ok { a with Description := String.mk d } := by
    unfold extractDescription
    simp only [htag, getTextFromTag, hm, h1, h2]
  refine ⟨p, d, q, hs, hp, hd, hres, fun hnil => ?_⟩
  rw [hres, hnil]

/-- C16, at the sample article page and at a page with an empty description. -/
theorem extractDescription_between_delimiters_witness :
    (∃ p d q, ("<p class=\"Article__Headline__Desc\">A description</p>" : String).data =
        p ++ '>' :: (d ++ '<' :: q) ∧ '>' ∉ p ∧ '<' ∉ d ∧
      extractDescription sampleWeb Article.zero (some articleDoc) =
        .ok { Article.zero with Description := String.mk d } ∧
      (d = [] → extractDescription sampleWeb Article.zero (some articleDoc) =
        .ok { Article.zero with Description := "" })) ∧
    extractDescription sampleWeb Article.zero (some articleDoc) =
      .ok ⟨"", "", "", "A description"⟩ ∧
    extractDescription sampleWeb Article.zero (some updatedDoc) = .ok ⟨"", "", "", ""⟩ :=
  ⟨extractDescription_between_delimiters sampleWeb Article.zero articleDoc
      (.mk .ElementNode "p" [⟨"", "class", "Article__Headline__Desc"⟩]
        [.mk .TextNode "A description" [] []])
      "<p class=\"Article__Headline__Desc\">A description</p>" rfl rfl
      ⟨34, 48, by decide, by decide, by decide⟩,
    rfl, rfl⟩

/-- C17: for a teaser with at least three attributes, when the value `v` of the
third holds a comma, `extractTitle` sets Title to `v` up to its last comma,
which is left out; when `v` holds no comma, `extractTitle` faults on the slice
bound `-1`. -/
theorem extractTitle_up_to_last_comma (a : Article) (tag : Node) (attr : Attribute)
    (hattr : tag.Attr[2]? = some attr) :
    (',' ∈ attr.Val.data →
      ∃ title r, attr.Val.data = title ++ ',' :: r ∧ ',' ∉ r ∧
        extractTitle a (some tag) = .ok { a with Title := String.mk title }) ∧
    (',' ∉ attr.Val.data → extractTitle a (some tag) = .error Fault.sliceBoundsOutOfRange) := by
  constructor
  · intro hmem
    obtain ⟨title, r, heq, hr⟩ := exists_last_occurrence ',' attr.Val.data hmem
    refine ⟨title, r, heq, hr, ?_⟩
    have hidx : stringsLastIndex attr.Val "," = (title.length : Int) := by
      unfold stringsLastIndex
      rw [heq]
      have := lastIndexLoop_singleton_found ',' r hr title 0 (-1)
      rw [Nat.zero_add] at this
      exact this
    unfold extractTitle
    simp only [hattr, hidx]
    rw [sliceTo_take attr.Val title.length (by rw [heq]; simp)]
    simp only [heq, List.take_left']
  · intro hno
    have hidx : stringsLastIndex attr.Val "," = -1 := by
      unfold stringsLastIndex
      exact lastIndexLoop_singleton_absent ',' attr.Val.data 0 (-1) hno
    unfold extractTitle
    simp only [hattr, hidx, sliceTo_negative]

/-- C17, at a teaser whose label has two commas and at one whose label has
none. -/
theorem extractTitle_up_to_last_comma_witness :
    ((',' ∈ ("Deep sea, in colour, Science" : String).data →
      ∃ title r, ("Deep sea, in colour, Science" : String).data = title ++ ',' :: r ∧ ',' ∉ r ∧
        extractTitle Article.zero (some sampleTeaser) =
          .ok { Article.zero with Title := String.mk title }) ∧
    (',' ∉ ("Deep sea, in colour, Science" : String).data →
      extractTitle Article.zero (some sampleTeaser) = .error Fault.sliceBoundsOutOfRange)) ∧
    extractTitle Article.zero (some sampleTeaser) = .ok ⟨"", "", "Deep sea, in colour", ""⟩ ∧
    extractTitle Article.zero (some commalessTeaser) = .error Fault.sliceBoundsOutOfRange :=
  ⟨extractTitle_up_to_last_comma Article.zero sampleTeaser
      ⟨"", "aria-label", "Deep sea, in colour, Science"⟩ rfl,
    rfl, rfl⟩

/-! ### `strings.ReplaceAll` with a non-empty pattern -/

theorem replaceLoop_skip (old new : List Char) (v : List Char) :
    ∀ (w : List Char) (k : Nat), w.length = k →
      replaceLoop old new k (w ++ v) = replaceLoop old new 0 v := by
  intro w
  induction w with
  | nil => intro k hk; rw [← hk]; rfl
  | cons x w ih =>
    intro k hk
    cases k with
    | zero => simp at hk
    | succ k =>
      rw [List.cons_append, replaceLoop]
      exact ih k (by simpa using hk)

theorem replaceLoop_absent (old new : List Char) :
    ∀ l : List Char, ¬ old <:+: l → replaceLoop old new 0 l = l := by
  intro l
  induction l with
  | nil => intro _; rfl
  | cons c l ih =>
    intro h
    have hpre : old.isPrefixOf (c :: l) = false := by
      cases hb : old.isPrefixOf (c :: l) with
      | false => rfl
      | true => exact absurd (List.isPrefixOf_iff_prefix.mp hb).isInfix h
    have hl : ¬ old <:+: l := fun hi => h (hi.trans (List.suffix_cons c l).isInfix)
    rw [replaceLoop, hpre, if_neg (by simp), ih hl]

theorem replaceLoop_first (old new : List Char) (hold : old ≠ []) (v : List Char) :
    ∀ u : List Char, ¬ old <:+: u ++ old.dropLast →
      replaceLoop old new 0 (u ++ old ++ v) = u ++ new ++ replaceLoop old new 0 v := by
  intro u
  induction u with
  | nil =>
    intro _
    cases hold2 : old with
    | nil => exact absurd hold2 hold
    | cons c rest =>
      have hpre : (c :: rest).isPrefixOf (c :: (rest ++ v)) = true :=
        List.isPrefixOf_iff_prefix.mpr ⟨v, rfl⟩
      simp only [List.nil_append, List.cons_append]
      rw [replaceLoop, hpre, if_pos rfl]
      simp only [List.length_cons, Nat.add_sub_cancel]
      rw [replaceLoop_skip (c :: rest) new v rest rest.length rfl]
  | cons x u ih =>
    intro h
    have hsplit : old = old.dropLast ++ [old.getLast hold] :=
      (List.dropLast_append_getLast hold).symm
    have hpre : old.isPrefixOf (x :: (u ++ old ++ v)) = false := by
      cases hb : old.isPrefixOf (x :: (u ++ old ++ v)) with
      | false => rfl
      | true =>
        exfalso
        apply h
        have h1 : old <+: x :: (u ++ old ++ v) := List.isPrefixOf_iff_prefix.mp hb
        have h2 : (x :: u ++ old.dropLast) <+: x :: (u ++ old ++ v) := by
          refine ⟨[old.getLast hold] ++ v, ?_⟩
          conv_rhs => rw [hsplit]
          simp
        have hlen : old.length ≤ (x :: u ++ old.dropLast).length := by
          simp only [List.cons_append, List.length_cons, List.length_append,
            List.length_dropLast]
          have : 0 < old.length := List.length_pos.mpr hold
          omega
        exact (List.prefix_of_prefix_length_le h1 h2 hlen).isInfix
    have hu : ¬ old <:+: u ++ old.dropLast :=
      fun hi => h (hi.trans (List.suffix_cons x (u ++ old.dropLast)).isInfix)
    simp only [List.cons_append]
    rw [replaceLoop, hpre, if_neg (by simp), ih hu]

/-- C18 (as amended): when the date container is located and its rendered
markup has the text `t` between its first `>` and the next `<`,
`extractPublicationDate` sets Date to `t` with every occurrence of `Published `
removed, first occurrence first: `t` itself when it holds none, and for a first
occurrence after `u` the text `u` followed by the rest treated alike. -/
theorem extractPublicationDate_removes_every_occurrence (env : WebEnv) (a : Article)
    (doc tag : Node) (m : String) (p t q : List Char)
    (htag : findTag "Byline__Meta Byline__Meta--publishDate" (some doc) = .ok (some tag))
    (hm : env.Render tag = .ok m) (hs : m.data = p ++ '>' :: (t ++ '<' :: q))
    (hp : '>' ∉ p) (ht : '<' ∉ t) :
    extractPublicationDate env a (some doc) =
        .ok { a with Date := stringsReplaceAll (String.mk t) "Published " "" } ∧
      (¬ ("Published " : String).data <:+: t →
        stringsReplaceAll (String.mk t) "Published " "" = String.mk t) ∧
      (∀ u v : List Char, t = u ++ ("Published " : String).data ++ v →
        ¬ ("Published " : String).data <:+: u ++ ("Published" : String).data →
        stringsReplaceAll (String.mk t) "Published " "" =
          String.mk u ++ stringsReplaceAll (String.mk v) "Published " "") := by
  have hne : ("Published " : String).data ≠ [] := by decide
  obtain ⟨h1, h2⟩ := cut_between_delimiters m p t q hs hp ht
  refine ⟨?_, ?_, ?_⟩
  · have hlen : ¬ m.data.length ≤ 0 := by rw [hs]; simp
    unfold extractPublicationDate
    simp only [htag, getTextFromTag, hm, if_neg hlen, h1, h2]
  · intro habs
    unfold stringsReplaceAll
    rw [if_neg hne, replaceLoop_absent _ _ t habs]
  · intro u v htu hfirst
    unfold stringsReplaceAll
    rw [if_neg hne, if_neg hne]
    have := replaceLoop_first ("Published " : String).data ("" : String).data hne v u hfirst
    simp only [htu, this]
    apply String.ext
    simp

/-- C18, at the sample article page: the prefix `Published ` is removed. -/
theorem extractPublicationDate_removes_every_occurrence_witness :
    (extractPublicationDate sampleWeb Article.zero (some articleDoc) =
        .ok { Article.zero with
          Date := stringsReplaceAll "Published May 1, 2021" "Published " "" } ∧
      (¬ ("Published " : String).data <:+: ("Published May 1, 2021" : String).data →
        stringsReplaceAll "Published May 1, 2021" "Published " "" = "Published May 1, 2021") ∧
      (∀ u v : List Char,
        ("Published May 1, 2021" : String).data = u ++ ("Published " : String).data ++ v →
        ¬ ("Published " : String).data <:+: u ++ ("Published" : String).data →
        stringsReplaceAll "Published May 1, 2021" "Published " "" =
          String.mk u ++ stringsReplaceAll (String.mk v) "Published " "")) ∧
    extractPublicationDate sampleWeb Article.zero (some articleDoc) =
      .ok ⟨"", "May 1, 2021", "", ""⟩ :=
  ⟨extractPublicationDate_removes_every_occurrence sampleWeb Article.zero articleDoc
      (.mk .ElementNode "div" [⟨"", "class", "Byline__Meta Byline__Meta--publishDate"⟩]
        [.mk .TextNode "Published May 1, 2021" [] []])
      "<div class=\"Byline__Meta Byline__Meta--publishDate\">Published May 1, 2021</div>"
      ("<div class=\"Byline__Meta Byline__Meta--publishDate\"" : String).data
      ("Published May 1, 2021" : String).data ("/div>" : String).data rfl rfl rfl
      (by decide) (by decide),
    rfl⟩

/-- C18 as stated fails when `Published ` occurs in the text without being its
prefix: the text between the delimiters is `Updated Published May 1`, which
does not start with `Published `, and yet Date is `Updated May 1`. -/
theorem extractPublicationDate_inner_occurrence_counterexample :
    sampleWeb.Render (.mk .ElementNode "div"
        [⟨"", "class", "Byline__Meta Byline__Meta--publishDate"⟩]
        [.mk .TextNode "Updated Published May 1" [] []]) =
      .ok "<div class=\"Byline__Meta Byline__Meta--publishDate\">Updated Published May 1</div>" ∧
    ¬ ("Published " : String).data <+: ("Updated Published May 1" : String).data ∧
    extractPublicationDate sampleWeb Article.zero (some updatedDoc) =
      .ok ⟨"", "Updated May 1", "", ""⟩ ∧
    extractPublicationDate sampleWeb Article.zero (some updatedDoc) ≠
      .ok ⟨"", "Updated Published May 1", "", ""⟩ := by
  refine ⟨rfl, by decide, rfl, ?_⟩
  intro h
  injection h with h
  revert h
  decide

theorem extractDescription_absent (env : WebEnv) (a : Article) (doc : Node)
    (h : findTag "Article__Headline__Desc" (some doc) = .ok none) :
    extractDescription env a (some doc) = .ok a := by
  unfold extractDescription
  simp only [h]

theorem extractPublicationDate_absent (env : WebEnv) (a : Article) (doc : Node)
    (h : findTag "Byline__Meta Byline__Meta--publishDate" (some doc) = .ok none) :
    extractPublicationDate env a (some doc) = .error Fault.nilDereference := by
  unfold extractPublicationDate
  simp only [h, getTextFromTag]

theorem extractDescription_unrendered (env : WebEnv) (a : Article) (doc tag : Node)
    (err : Error) (h : findTag "Article__Headline__Desc" (some doc) = .ok (some tag))
    (hr : env.Render tag = .error err) :
    extractDescription env a (some doc) = .error Fault.sliceBoundsOutOfRange := by
  unfold extractDescription
  simp only [h, getTextFromTag, hr]
  rfl

theorem extractPublicationDate_unrendered (env : WebEnv) (a : Article) (doc tag : Node)
    (err : Error) (h : findTag "Byline__Meta Byline__Meta--publishDate" (some doc) = .ok (some tag))
    (hr : env.Render tag = .error err) :
    extractPublicationDate env a (some doc) = .ok { a with Date := "" } := by
  unfold extractPublicationDate
  simp only [h, getTextFromTag, hr]
  rfl

/-- C13: on a page with neither container, `extractDescription` returns at its
nil check and leaves Description empty, whereas `extractPublicationDate`, which
has no such check, hands the nil node to the renderer and faults. -/
theorem extraction_without_containers :
    findTag "Article__Headline__Desc" (some bareDoc) = .ok none ∧
      findTag "Byline__Meta Byline__Meta--publishDate" (some bareDoc) = .ok none ∧
      extractDescription sampleWeb Article.zero (some bareDoc) = .ok ⟨"", "", "", ""⟩ ∧
      extractPublicationDate sampleWeb Article.zero (some bareDoc) =
        .error Fault.nilDereference :=
  ⟨rfl, rfl, rfl, rfl⟩

/-- C15: on a page whose containers cannot be rendered, `extractPublicationDate`
returns at its length check and leaves Date empty, whereas `extractDescription`,
which has no such check, slices the empty text at `-1` and faults. -/
theorem extraction_when_rendering_fails :
    getTextFromTag sampleWeb
        (some (.mk .ElementNode "p" [⟨"", "class", "Article__Headline__Desc"⟩]
          [.mk .ErrorNode "" [] []])) =
      .ok ("", some "\nhtml: cannot render an ErrorNode node\ngoroutine 1 [running]") ∧
      extractPublicationDate sampleWeb Article.zero (some unrenderableDoc) =
        .ok ⟨"", "", "", ""⟩ ∧
      extractDescription sampleWeb Article.zero (some unrenderableDoc) =
        .error Fault.sliceBoundsOutOfRange :=
  ⟨rfl, rfl, rfl⟩

/-! ### The listing decomposer -/

theorem getAttributeLoop_eq_find (key : String) (attrs : List Attribute) :
    getAttributeLoop key attrs =
      match attrs.find? (fun a => decide (a.Key = key)) with
      | some a => (a.Val, true)
      | none => ("", false) := by
  induction attrs with
  | nil => rfl
  | cons attr rest ih =>
    unfold getAttributeLoop
    by_cases hk : attr.Key = key
    · rw [if_pos hk, List.find?_cons_of_pos _ (by simpa using hk)]
    · rw [if_neg hk, List.find?_cons_of_neg _ (by simpa using hk), ih]

theorem checkKey_eq_hasClass (n : Node) (k : String) :
    checkKey (some n) k = .ok (hasClass k n) := by
  unfold checkKey hasClass getAttribute
  simp only
  rw [getAttributeLoop_eq_find]
  by_cases ht : n.«Type» = NodeType.ElementNode
  · rw [if_pos ht]
    cases n.Attr.find? (fun a => decide (a.Key = "class")) with
    | none => simp
    | some a =>
      cases hc : stringsContains a.Val k <;> simp [ht, hc]
  · rw [if_neg ht]
    simp [ht]

mutual
theorem traverseNode_eq_find (k : String) :
    ∀ n : Node, traverseNode k n = .ok (n.preorder.find? (hasClass k))
  | .mk t d a children => by
    rw [traverseNode, checkKey_eq_hasClass, Node.preorder]
    cases hb : hasClass k (.mk t d a children) with
    | true => simp only [List.find?_cons, hb]
    | false =>
      simp only [List.find?_cons, hb]
      exact traverseChildren_eq_find k children
theorem traverseChildren_eq_find (k : String) :
    ∀ cs : List Node, traverseChildren k cs = .ok ((preorderList cs).find? (hasClass k))
  | [] => by rw [traverseChildren, preorderList]; rfl
  | c :: rest => by
    rw [traverseChildren, traverseNode_eq_find k c, preorderList, List.find?_append]
    cases hf : c.preorder.find? (hasClass k) with
    | some m => simp
    | none =>
      simp only [Option.none_or]
      exact traverseChildren_eq_find k rest
end

theorem findTag_eq_find (k : String) (n : Node) :
    findTag k (some n) = .ok (n.preorder.find? (hasClass k)) :=
  traverseNode_eq_find k n

theorem sponsored_eq_false_iff (c : Node) :
    sponsored c = false ↔ c.preorder.find? (hasClass "SectionLabel--sponsor") = none := by
  unfold sponsored
  rw [List.find?_eq_none]
  constructor
  · intro h x hx
    have := List.any_eq_false.mp h x hx
    simpa using this
  · intro h
    apply List.any_eq_false.mpr
    intro x hx
    simpa using h x hx

/-- The body of the loop, in the vocabulary of the specification. -/
theorem extractTagAttributesBody_eq (env : WebEnv) (c : Node) :
    extractTagAttributesBody env c =
      if sponsored c = true then .ok none
      else
        match sectionLabelText env c with
        | none => .error Fault.nilDereference
        | some text =>
          if stringsContains text "Magazine" = true then .ok none
          else
            match teaserOf c with
            | none => .error Fault.nilDereference
            | some tag => .ok (some tag) := by
  unfold extractTagAttributesBody
  rw [findTag_eq_find, findTag_eq_find]
  cases hs : sponsored c with
  | true =>
    have : c.preorder.find? (hasClass "SectionLabel--sponsor") ≠ none := by
      intro h
      rw [(sponsored_eq_false_iff c).mpr h] at hs
      cases hs
    cases hf : c.preorder.find? (hasClass "SectionLabel--sponsor") with
    | none => exact absurd hf this
    | some m => simp
  | false =>
    rw [(sponsored_eq_false_iff c).mp hs]
    simp only [Bool.false_eq_true, if_false]
    unfold sectionLabelText teaserOf
    cases c.preorder.find? (hasClass "SectionLabel SectionLabel--link") with
    | none => rfl
    | some label =>
      simp only [firstChild]
      cases label.Children.head? with
      | none => rfl
      | some child =>
        simp only
        cases child.Children.head? with
        | none => rfl
        | some grandchild =>
          simp only [getTextFromTag]
          cases hr : env.Render grandchild with
          | error err =>
            simp only
            cases hm : stringsContains "" "Magazine" with
            | true => simp
            | false =>
              simp only [Bool.not_false, if_true, Bool.false_eq_true, if_false]
              cases c.Children.head? with
              | none => rfl
              | some c1 =>
                simp only
                cases c1.Children.head? with
                | none => rfl
                | some c2 => rfl
          | ok text =>
            simp only
            cases hm : stringsContains text "Magazine" with
            | true => simp
            | false =>
              simp only [Bool.not_false, if_true, Bool.false_eq_true, if_false]
              cases c.Children.head? with
              | none => rfl
              | some c1 =>
                simp only
                cases c1.Children.head? with
                | none => rfl
                | some c2 => rfl

theorem extractTagAttributesBody_ok (env : WebEnv) (c : Node) (r : Option (Option Node))
    (h : extractTagAttributesBody env c = .ok r) :
    r = if qualifies env c = true then some (articleTagOf c) else none := by
  rw [extractTagAttributesBody_eq] at h
  unfold qualifies articleTagOf
  cases hs : sponsored c with
  | true =>
    rw [hs] at h
    simp only [if_true] at h
    injection h with h
    rw [← h]
    simp
  | false =>
    rw [hs] at h
    simp only [Bool.false_eq_true, if_false] at h
    cases ht : sectionLabelText env c with
    | none => rw [ht] at h; cases h
    | some text =>
      rw [ht] at h
      simp only at h
      cases hm : stringsContains text "Magazine" with
      | true =>
        rw [hm] at h
        simp only [if_true] at h
        injection h with h
        rw [← h]
        simp [hm]
      | false =>
        rw [hm] at h
        simp only [Bool.false_eq_true, if_false] at h
        cases hte : teaserOf c with
        | none => rw [hte] at h; cases h
        | some tag =>
          rw [hte] at h
          injection h with h
          rw [← h]
          simp [hm]

theorem extractTagAttributesBody_navigable (env : WebEnv) (c : Node)
    (hnav : sponsored c = false →
      ∃ text, sectionLabelText env c = some text ∧
        (stringsContains text "Magazine" = false → (teaserOf c).isSome = true)) :
    extractTagAttributesBody env c =
      .ok (if qualifies env c = true then some (articleTagOf c) else none) := by
  have hex : ∃ r, extractTagAttributesBody env c = .ok r := by
    rw [extractTagAttributesBody_eq]
    cases hs : sponsored c with
    | true => exact ⟨none, by simp⟩
    | false =>
      obtain ⟨text, ht, hte⟩ := hnav hs
      rw [ht]
      simp only [Bool.false_eq_true, if_false]
      cases hm : stringsContains text "Magazine" with
      | true => exact ⟨none, by simp⟩
      | false =>
        have hsome := hte hm
        cases hte2 : teaserOf c with
        | none => rw [hte2] at hsome; cases hsome
        | some tag => exact ⟨some tag, by simp⟩
  obtain ⟨r, hr⟩ := hex
  rw [hr, extractTagAttributesBody_ok env c r hr]

theorem extractTagAttributesLoop_ok (env : WebEnv) :
    ∀ (cs : List Node) (acc out : List Spawned),
      extractTagAttributesLoop env acc cs = .ok out →
      out = acc ++ (cs.filter (qualifies env)).map spawnedOf := by
  intro cs
  induction cs with
  | nil =>
    intro acc out h
    rw [extractTagAttributesLoop] at h
    injection h with h
    simp [h]
  | cons c rest ih =>
    intro acc out h
    rw [extractTagAttributesLoop] at h
    cases hb : extractTagAttributesBody env c with
    | error f => rw [hb] at h; cases h
    | ok r =>
      have hr := extractTagAttributesBody_ok env c r hb
      rw [hb] at h
      cases hq : qualifies env c with
      | true =>
        rw [hq] at hr
        simp only [if_true] at hr
        rw [hr] at h
        simp only at h
        rw [ih _ _ h, List.filter_cons_of_pos hq]
        simp [spawnedOf]
      | false =>
        rw [hq] at hr
        simp only [Bool.false_eq_true, if_false] at hr
        rw [hr] at h
        simp only at h
        rw [ih _ _ h, List.filter_cons_of_neg (by simp [hq])]

theorem extractTagAttributesLoop_navigable (env : WebEnv) :
    ∀ (cs : List Node) (acc : List Spawned),
      (∀ c ∈ cs, sponsored c = false →
        ∃ text, sectionLabelText env c = some text ∧
          (stringsContains text "Magazine" = false → (teaserOf c).isSome = true)) →
      extractTagAttributesLoop env acc cs =
        .ok (acc ++ (cs.filter (qualifies env)).map spawnedOf) := by
  intro cs
  induction cs with
  | nil => intro acc _; simp [extractTagAttributesLoop]
  | cons c rest ih =>
    intro acc hnav
    have hb := extractTagAttributesBody_navigable env c (hnav c (List.mem_cons_self _ _))
    have hrest := fun acc2 => ih acc2 (fun x hx => hnav x (List.mem_cons_of_mem _ hx))
    rw [extractTagAttributesLoop, hb]
    cases hq : qualifies env c with
    | true =>
      simp only [if_true]
      rw [hrest, List.filter_cons_of_pos hq]
      simp [spawnedOf]
    | false =>
      simp only [Bool.false_eq_true, if_false]
      rw [hrest, List.filter_cons_of_neg (by simp [hq])]

theorem sampleRow_navigable : Navigable sampleWeb sampleRow := by
  intro c hc hs
  simp only [sampleRow, Node.Children, List.mem_cons, List.mem_singleton, List.not_mem_nil,
    or_false] at hc
  rcases hc with rfl | rfl | rfl
  · exact absurd hs (by decide)
  · exact ⟨"Magazine", rfl, fun h => absurd h (by decide)⟩
  · exact ⟨"Science", rfl, fun _ => rfl⟩

theorem wgWait_ok (env : WebEnv) :
    ∀ (order : List Nat), order.Nodup → ∀ (cur out : List Spawned),
      wgWait env order cur = .ok out →
      out.length = cur.length ∧
        ∀ (j : Nat) (s : Spawned), cur[j]? = some s →
          (j ∈ order → ∃ a, composeInfo env s.record s.articleTag = .ok a ∧
            out[j]? = some { s with record := a }) ∧
          (j ∉ order → out[j]? = some s) := by
  intro order
  induction order with
  | nil =>
    intro _ cur out h
    rw [wgWait] at h
    injection h with h
    subst h
    exact ⟨rfl, fun j s hs => ⟨fun hj => absurd hj (List.not_mem_nil j), fun _ => hs⟩⟩
  | cons i rest ih =>
    intro hnd cur out h
    have hi : i ∉ rest := (List.nodup_cons.mp hnd).1
    have hrest : rest.Nodup := (List.nodup_cons.mp hnd).2
    rw [wgWait] at h
    unfold runGoroutine at h
    cases hci : cur[i]? with
    | none =>
      rw [hci] at h
      simp only at h
      obtain ⟨hlen, hall⟩ := ih hrest cur out h
      refine ⟨hlen, fun j s hs => ?_⟩
      have hji : j ≠ i := by
        intro hji
        rw [hji, hci] at hs
        cases hs
      obtain ⟨h1, h2⟩ := hall j s hs
      refine ⟨fun hj => ?_, fun hj => ?_⟩
      · rcases List.mem_cons.mp hj with hj | hj
        · exact absurd hj hji
        · exact h1 hj
      · exact h2 (fun hj2 => hj (List.mem_cons_of_mem _ hj2))
    | some si =>
      rw [hci] at h
      simp only at h
      cases hc : composeInfo env si.record si.articleTag with
      | error f => rw [hc] at h; cases h
      | ok a =>
        rw [hc] at h
        simp only at h
        have hilt : i < cur.length := by
          rcases Nat.lt_or_ge i cur.length with hlt | hge
          · exact hlt
          · rw [List.getElem?_eq_none hge] at hci; cases hci
        obtain ⟨hlen, hall⟩ := ih hrest _ out h
        rw [List.length_set] at hlen
        refine ⟨hlen, fun j s hs => ?_⟩
        by_cases hji : j = i
        · subst hji
          rw [hci] at hs
          injection hs with hs
          subst hs
          have hset : (cur.set j { si with record := a })[j]? = some { si with record := a } :=
            List.getElem?_set_self hilt
          obtain ⟨_, h2⟩ := hall j _ hset
          refine ⟨fun _ => ⟨a, hc, h2 hi⟩, fun hj => absurd (List.mem_cons_self _ _) hj⟩
        · have hset : (cur.set i { si with record := a })[j]? = some s := by
            rw [List.getElem?_set_ne (fun h => hji h.symm)]
            exact hs
          obtain ⟨h1, h2⟩ := hall j s hset
          refine ⟨fun hj => ?_, fun hj => ?_⟩
          · rcases List.mem_cons.mp hj with hj | hj
            · exact absurd hj hji
            · exact h1 hj
          · exact h2 (fun hj2 => hj (List.mem_cons_of_mem _ hj2))

theorem wgWait_total (env : WebEnv) :
    ∀ (order : List Nat), order.Nodup → ∀ (cur : List Spawned),
      (∀ (j : Nat) (s : Spawned), cur[j]? = some s → j ∈ order →
        ∃ a, composeInfo env s.record s.articleTag = .ok a) →
      ∃ out, wgWait env order cur = .ok out := by
  intro order
  induction order with
  | nil => intro _ cur _; exact ⟨cur, rfl⟩
  | cons i rest ih =>
    intro hnd cur hall
    have hi : i ∉ rest := (List.nodup_cons.mp hnd).1
    have hrest : rest.Nodup := (List.nodup_cons.mp hnd).2
    rw [wgWait]
    unfold runGoroutine
    cases hci : cur[i]? with
    | none =>
      simp only
      exact ih hrest cur (fun j s hs hj => hall j s hs (List.mem_cons_of_mem _ hj))
    | some si =>
      obtain ⟨a, ha⟩ := hall i si hci (List.mem_cons_self _ _)
      simp only [ha]
      apply ih hrest
      intro j s hs hj
      have hji : i ≠ j := fun h => hi (h ▸ hj)
      rw [List.getElem?_set_ne hji] at hs
      exact hall j s hs (List.mem_cons_of_mem _ hj)

/-- The outcome of the wait under a fair scheduler does not mention the
scheduler: every record is the enrichment of the record spawned at its index. -/
theorem wgWait_fair_iff (env : WebEnv) (order : List Nat) (cur out : List Spawned)
    (hfair : order.Perm (List.range cur.length)) :
    wgWait env order cur = .ok out ↔
      out.length = cur.length ∧
        ∀ (j : Nat) (s : Spawned), cur[j]? = some s →
          ∃ a, composeInfo env s.record s.articleTag = .ok a ∧
            out[j]? = some { s with record := a } := by
  have hnd : order.Nodup := (List.Perm.nodup_iff hfair).mpr (List.nodup_range _)
  have hmem : ∀ (j : Nat) (s : Spawned), cur[j]? = some s → j ∈ order := by
    intro j s hs
    apply (List.Perm.mem_iff hfair).mpr
    apply List.mem_range.mpr
    rcases Nat.lt_or_ge j cur.length with hlt | hge
    · exact hlt
    · rw [List.getElem?_eq_none hge] at hs; cases hs
  constructor
  · intro h
    obtain ⟨hlen, hall⟩ := wgWait_ok env order hnd cur out h
    exact ⟨hlen, fun j s hs => (hall j s hs).1 (hmem j s hs)⟩
  · rintro ⟨hlen, hall⟩
    obtain ⟨out2, hout2⟩ := wgWait_total env order hnd cur
      (fun j s hs _ => let ⟨a, ha, _⟩ := hall j s hs; ⟨a, ha⟩)
    obtain ⟨hlen2, hall2⟩ := wgWait_ok env order hnd cur out2 hout2
    rw [hout2]
    congr 1
    apply List.ext_getElem?
    intro j
    cases hs : cur[j]? with
    | none =>
      have hge : cur.length ≤ j := by
        rcases Nat.lt_or_ge j cur.length with hlt | hge
        · rw [List.getElem?_eq_getElem hlt] at hs; cases hs
        · exact hge
      rw [List.getElem?_eq_none (by omega), List.getElem?_eq_none (by omega)]
    | some s =>
      obtain ⟨a, ha, hj⟩ := hall j s hs
      obtain ⟨a2, ha2, hj2⟩ := (hall2 j s hs).1 (hmem j s hs)
      rw [ha] at ha2
      injection ha2 with ha2
      rw [hj, hj2, ha2]

/-! ### `composeArticles` -/

theorem composeArticles_unfold (env : WebEnv) (sched : Schedule) (ext : Node)
    (records : List Article) :
    composeArticles env sched (some ext) = .ok records ↔
      ∃ row1 row2 c1 cur1 cur out,
        findTag "GridPromoTile__Row" ext.Children[0]? = .ok (some row1) ∧
        ext.Children[1]? = some c1 ∧
        findTag "GridPromoTile__Row" ext.Children[2]? = .ok (some row2) ∧
        extractTagAttributesLoop env [] row1.Children = .ok cur1 ∧
        extractTagAttributesLoop env cur1 row2.Children = .ok cur ∧
        wgWait env (sched cur.length) cur = .ok out ∧
        records = out.map (fun s => s.record) := by
  constructor
  · intro h
    unfold composeArticles at h
    simp only at h
    cases h1 : findTag "GridPromoTile__Row" ext.Children[0]? with
    | error f => rw [h1] at h; cases h
    | ok r1 =>
      rw [h1] at h
      simp only at h
      cases r1 with
      | none => simp [extractTagAttributes] at h
      | some row1 =>
        simp only [extractTagAttributes] at h
        cases h2 : extractTagAttributesLoop env [] row1.Children with
        | error f => rw [h2] at h; cases h
        | ok cur1 =>
          rw [h2] at h
          simp only at h
          cases h3 : ext.Children[1]? with
          | none => rw [h3] at h; cases h
          | some c1 =>
            rw [h3] at h
            simp only at h
            cases h4 : findTag "GridPromoTile__Row" ext.Children[2]? with
            | error f => rw [h4] at h; cases h
            | ok r2 =>
              rw [h4] at h
              simp only at h
              cases r2 with
              | none => cases h
              | some row2 =>
                simp only at h
                cases h5 : extractTagAttributesLoop env cur1 row2.Children with
                | error f => rw [h5] at h; cases h
                | ok cur =>
                  rw [h5] at h
                  simp only at h
                  cases h6 : wgWait env (sched cur.length) cur with
                  | error f => rw [h6] at h; cases h
                  | ok out =>
                    rw [h6] at h
                    simp only at h
                    injection h with h
                    exact ⟨row1, row2, c1, cur1, cur, out, rfl, rfl, rfl, h2, h5, h6, h.symm⟩
  · rintro ⟨row1, row2, c1, cur1, cur, out, h1, h3, h4, h2, h5, h6, hrec⟩
    unfold composeArticles
    simp only [h1, extractTagAttributes, h2, h3, h4, h5, h6, hrec]

theorem startOrder_fair (n : Nat) : (startOrder n).Perm (List.range n) :=
  List.Perm.refl _

theorem reverseOrder_fair (n : Nat) : (reverseOrder n).Perm (List.range n) :=
  List.reverse_perm _

theorem secondRow_navigable : Navigable sampleWeb secondRow := by
  intro c hc _
  simp only [secondRow, Node.Children, List.mem_cons, List.mem_singleton, List.not_mem_nil,
    or_false] at hc
  rcases hc with rfl | rfl
  · exact ⟨"History", rfl, fun _ => rfl⟩
  · exact ⟨"Space", rfl, fun _ => rfl⟩

theorem wgWait_fair_exists (env : WebEnv) (order : List Nat) (cur : List Spawned)
    (hfair : order.Perm (List.range cur.length))
    (hall : ∀ (j : Nat) (s : Spawned), cur[j]? = some s →
      ∃ a, composeInfo env s.record s.articleTag = .ok a) :
    ∃ out, wgWait env order cur = .ok out ∧ out.length = cur.length ∧
      ∀ (j : Nat) (s : Spawned), cur[j]? = some s →
        ∃ a, composeInfo env s.record s.articleTag = .ok a ∧
          out[j]? = some { s with record := a } := by
  have hnd : order.Nodup := (List.Perm.nodup_iff hfair).mpr (List.nodup_range _)
  obtain ⟨out, hout⟩ := wgWait_total env order hnd cur (fun j s hs _ => hall j s hs)
  exact ⟨out, hout, (wgWait_fair_iff env order cur out hfair).mp hout⟩

theorem spawned_getElem? (qs : List Node) (i : Nat) (s : Spawned)
    (h : (qs.map spawnedOf)[i]? = some s) : ∃ c, qs[i]? = some c ∧ s = spawnedOf c := by
  rw [List.getElem?_map] at h
  cases hq : qs[i]? with
  | none => rw [hq] at h; cases h
  | some c =>
    rw [hq] at h
    injection h with h
    exact ⟨c, rfl, h.symm⟩

/-- C20: whatever the order in which the goroutines complete, the list that
`composeArticles` returns is in document order: one record for each qualifying
child of the first row, in sibling order, then one for each qualifying child of
the second row, each record being the enrichment of its own child; every fair
scheduler gives the same list. -/
theorem composeArticles_document_order (env : WebEnv) (sched : Schedule)
    (hfair : ∀ n, (sched n).Perm (List.range n)) (ext : Node) (records : List Article)
    (hret : composeArticles env sched (some ext) = .ok records) :
    ∃ row1 row2,
      findTag "GridPromoTile__Row" ext.Children[0]? = .ok (some row1) ∧
      findTag "GridPromoTile__Row" ext.Children[2]? = .ok (some row2) ∧
      records.length =
        (row1.Children.filter (qualifies env) ++ row2.Children.filter (qualifies env)).length ∧
      (∀ (i : Nat) (c : Node),
        (row1.Children.filter (qualifies env) ++ row2.Children.filter (qualifies env))[i]? =
          some c →
        ∃ a, composeInfo env Article.zero (articleTagOf c) = .ok a ∧ records[i]? = some a) ∧
      (∀ sched2 : Schedule, (∀ n, (sched2 n).Perm (List.range n)) →
        composeArticles env sched2 (some ext) = .ok records) := by
  obtain ⟨row1, row2, c1, cur1, cur, out, h1, h3, h4, h2, h5, h6, hrec⟩ :=
    (composeArticles_unfold env sched ext records).mp hret
  have hcur1 := extractTagAttributesLoop_ok env _ _ _ h2
  have hcur := extractTagAttributesLoop_ok env _ _ _ h5
  have hcur2 : cur =
      (row1.Children.filter (qualifies env) ++ row2.Children.filter (qualifies env)).map
        spawnedOf := by
    rw [hcur, hcur1]
    simp
  obtain ⟨hlen, hall⟩ := (wgWait_fair_iff env _ cur out (hfair cur.length)).mp h6
  refine ⟨row1, row2, h1, h4, ?_, ?_, ?_⟩
  · rw [hrec, List.length_map, hlen, hcur2, List.length_map]
  · intro i c hc
    have hs : cur[i]? = some (spawnedOf c) := by
      rw [hcur2, List.getElem?_map, hc]
      rfl
    obtain ⟨a, ha, hout⟩ := hall i _ hs
    refine ⟨a, ha, ?_⟩
    rw [hrec, List.getElem?_map, hout]
    rfl
  · intro sched2 hfair2
    apply (composeArticles_unfold env sched2 ext records).mpr
    exact ⟨row1, row2, c1, cur1, cur, out, h1, h3, h4, h2, h5,
      (wgWait_fair_iff env _ cur out (hfair2 cur.length)).mpr ⟨hlen, hall⟩, hrec⟩

/-- C20, at the sample listing with the goroutines completing in reverse order
of their start: the records are in document order all the same. -/
theorem composeArticles_document_order_witness :
    composeArticles sampleWeb reverseOrder (some sampleListing) =
        .ok [⟨"https://ng.example/a", "May 1, 2021", "Deep sea, in colour", "A description"⟩,
          ⟨"https://ng.example/gone", "", "Lost city", ""⟩,
          ⟨"https://ng.example/updated", "Updated May 1", "Night sky", ""⟩] ∧
      ∃ row1 row2,
        findTag "GridPromoTile__Row" sampleListing.Children[0]? = .ok (some row1) ∧
        findTag "GridPromoTile__Row" sampleListing.Children[2]? = .ok (some row2) ∧
        [(⟨"https://ng.example/a", "May 1, 2021", "Deep sea, in colour", "A description"⟩ :
            Article),
          ⟨"https://ng.example/gone", "", "Lost city", ""⟩,
          ⟨"https://ng.example/updated", "Updated May 1", "Night sky", ""⟩].length =
          (row1.Children.filter (qualifies sampleWeb) ++
            row2.Children.filter (qualifies sampleWeb)).length ∧
        (∀ (i : Nat) (c : Node),
          (row1.Children.filter (qualifies sampleWeb) ++
            row2.Children.filter (qualifies sampleWeb))[i]? = some c →
          ∃ a, composeInfo sampleWeb Article.zero (articleTagOf c) = .ok a ∧
            [(⟨"https://ng.example/a", "May 1, 2021", "Deep sea, in colour", "A description"⟩ :
                Article),
              ⟨"https://ng.example/gone", "", "Lost city", ""⟩,
              ⟨"https://ng.example/updated", "Updated May 1", "Night sky", ""⟩][i]? = some a) ∧
        (∀ sched2 : Schedule, (∀ n, (sched2 n).Perm (List.range n)) →
          composeArticles sampleWeb sched2 (some sampleListing) =
            .ok [⟨"https://ng.example/a", "May 1, 2021", "Deep sea, in colour", "A description"⟩,
              ⟨"https://ng.example/gone", "", "Lost city", ""⟩,
              ⟨"https://ng.example/updated", "Updated May 1", "Night sky", ""⟩]) :=
  ⟨rfl, composeArticles_document_order sampleWeb reverseOrder reverseOrder_fair sampleListing _ rfl⟩

/-! ### Failed fetches -/

theorem extractTitle_of_comma (tag : Node) (attr : Attribute)
    (hattr : tag.Attr[2]? = some attr) (hmem : ',' ∈ attr.Val.data) :
    ∃ title r, attr.Val.data = title ++ ',' :: r ∧ ',' ∉ r ∧
      ∀ a : Article, extractTitle a (some tag) = .ok { a with Title := String.mk title } := by
  obtain ⟨title, r, heq, hr⟩ := exists_last_occurrence ',' attr.Val.data hmem
  refine ⟨title, r, heq, hr, fun a => ?_⟩
  have hidx : stringsLastIndex attr.Val "," = (title.length : Int) := by
    unfold stringsLastIndex
    rw [heq]
    have := lastIndexLoop_singleton_found ',' r hr title 0 (-1)
    rw [Nat.zero_add] at this
    exact this
  unfold extractTitle
  simp only [hattr, hidx]
  rw [sliceTo_take attr.Val title.length (by rw [heq]; simp)]
  simp only [heq, List.take_left']

theorem composeInfo_failed_fetch (env : WebEnv) (teaser : Node) (a2 a3 : Attribute)
    (err : Error) (h2 : teaser.Attr[2]? = some a2) (hmem : ',' ∈ a2.Val.data)
    (h3 : teaser.Attr[3]? = some a3) (hf : fetchHTMLNode env a3.Val = .error err) :
    ∃ title r, a2.Val.data = title ++ ',' :: r ∧ ',' ∉ r ∧
      composeInfo env Article.zero (some teaser) = .ok ⟨a3.Val, "", String.mk title, ""⟩ := by
  obtain ⟨title, r, heq, hr, ht⟩ := extractTitle_of_comma teaser a2 h2 hmem
  refine ⟨title, r, heq, hr, ?_⟩
  unfold composeInfo
  simp only [ht, h3, hf]
  rfl

theorem composeInfo_fetched (env : WebEnv) (teaser doc : Node) (a2 a3 : Attribute)
    (h2 : teaser.Attr[2]? = some a2) (hmem : ',' ∈ a2.Val.data)
    (h3 : teaser.Attr[3]? = some a3) (hf : fetchHTMLNode env a3.Val = .ok doc)
    (hd : ∀ a : Article, ∃ a1, extractDescription env a (some doc) = .ok a1)
    (hp : ∀ a : Article, ∃ a1, extractPublicationDate env a (some doc) = .ok a1) :
    ∃ a, composeInfo env Article.zero (some teaser) = .ok a := by
  obtain ⟨title, r, _, _, ht⟩ := extractTitle_of_comma teaser a2 h2 hmem
  unfold composeInfo
  simp only [ht, h3, hf]
  obtain ⟨a1, ha1⟩ := hd { Article.zero with Title := String.mk title, Link := a3.Val }
  simp only [Article.zero] at ha1
  simp only [Article.zero, ha1]
  exact hp a1

/-- C12 (as amended): on a listing whose two rows are located and can be walked
without a fault, whose qualifying teasers each have at least four attributes
and a comma in the value of the third, and where every article either fails to
be fetched or is fetched as a page on which the two extractions do not fault,
`composeArticles` returns one record per qualifying teaser under every fair
scheduler, and each record whose fetch failed has Link and Title from the
teaser and empty Description and Date. -/
theorem composeArticles_failed_fetches (env : WebEnv) (sched : Schedule)
    (hfair : ∀ n, (sched n).Perm (List.range n)) (ext row1 row2 c1 : Node)
    (hrow1 : findTag "GridPromoTile__Row" ext.Children[0]? = .ok (some row1))
    (hc1 : ext.Children[1]? = some c1)
    (hrow2 : findTag "GridPromoTile__Row" ext.Children[2]? = .ok (some row2))
    (hnav1 : Navigable env row1) (hnav2 : Navigable env row2)
    (hteasers : ∀ c ∈ row1.Children.filter (qualifies env) ++
        row2.Children.filter (qualifies env),
      ∃ teaser a2 a3, articleTagOf c = some teaser ∧ teaser.Attr[2]? = some a2 ∧
        ',' ∈ a2.Val.data ∧ teaser.Attr[3]? = some a3 ∧
        ((∃ err, fetchHTMLNode env a3.Val = .error err) ∨
          ∃ doc, fetchHTMLNode env a3.Val = .ok doc ∧
            (∀ a : Article, ∃ a1, extractDescription env a (some doc) = .ok a1) ∧
            (∀ a : Article, ∃ a1, extractPublicationDate env a (some doc) = .ok a1))) :
    ∃ records, composeArticles env sched (some ext) = .ok records ∧
      records.length =
        (row1.Children.filter (qualifies env) ++ row2.Children.filter (qualifies env)).length ∧
      ∀ (i : Nat) (c teaser : Node) (a2 a3 : Attribute) (err : Error),
        (row1.Children.filter (qualifies env) ++ row2.Children.filter (qualifies env))[i]? =
          some c →
        articleTagOf c = some teaser → teaser.Attr[2]? = some a2 →
        teaser.Attr[3]? = some a3 → fetchHTMLNode env a3.Val = .error err →
        ∃ title r, a2.Val.data = title ++ ',' :: r ∧ ',' ∉ r ∧
          records[i]? = some ⟨a3.Val, "", String.mk title, ""⟩ := by
  have h2 := extractTagAttributesLoop_navigable env row1.Children [] hnav1
  have h5 := extractTagAttributesLoop_navigable env row2.Children
    ([] ++ (row1.Children.filter (qualifies env)).map spawnedOf) hnav2
  have hcur : [] ++ (row1.Children.filter (qualifies env)).map spawnedOf ++
      (row2.Children.filter (qualifies env)).map spawnedOf =
      (row1.Children.filter (qualifies env) ++ row2.Children.filter (qualifies env)).map
        spawnedOf := by simp
  rw [hcur] at h5
  have hall : ∀ (j : Nat) (s : Spawned),
      ((row1.Children.filter (qualifies env) ++ row2.Children.filter (qualifies env)).map
        spawnedOf)[j]? = some s →
      ∃ a, composeInfo env s.record s.articleTag = .ok a := by
    intro j s hs
    obtain ⟨c, hc, hsc⟩ := spawned_getElem? _ j s hs
    obtain ⟨teaser, a2, a3, htag, ha2, hmem, ha3, hfetch⟩ := hteasers c (List.getElem?_mem hc)
    rw [hsc]
    simp only [spawnedOf, htag]
    rcases hfetch with ⟨err, herr⟩ | ⟨doc, hdoc, hd, hp⟩
    · obtain ⟨title, r, _, _, hci⟩ := composeInfo_failed_fetch env teaser a2 a3 err ha2 hmem ha3 herr
      exact ⟨_, hci⟩
    · exact composeInfo_fetched env teaser doc a2 a3 ha2 hmem ha3 hdoc hd hp
  obtain ⟨out, hout, hlen, hrecs⟩ := wgWait_fair_exists env _ _ (hfair _) hall
  refine ⟨out.map (fun s => s.record), ?_, ?_, ?_⟩
  · exact (composeArticles_unfold env sched ext _).mpr
      ⟨row1, row2, c1, _, _, out, hrow1, hc1, hrow2, h2, h5, hout, rfl⟩
  · rw [List.length_map, hlen, List.length_map]
  · intro i c teaser a2 a3 err hc htag ha2 ha3 herr
    have hmem : ',' ∈ a2.Val.data := by
      obtain ⟨teaser2, b2, b3, htag2, hb2, hmem2, _, _⟩ := hteasers c (List.getElem?_mem hc)
      rw [htag] at htag2
      injection htag2 with htag2
      subst htag2
      rw [ha2] at hb2
      injection hb2 with hb2
      rw [hb2]
      exact hmem2
    obtain ⟨title, r, heq, hr, hci⟩ := composeInfo_failed_fetch env teaser a2 a3 err ha2 hmem ha3 herr
    refine ⟨title, r, heq, hr, ?_⟩
    have hs : ((row1.Children.filter (qualifies env) ++
        row2.Children.filter (qualifies env)).map spawnedOf)[i]? = some (spawnedOf c) := by
      rw [List.getElem?_map, hc]
      rfl
    obtain ⟨a, ha, hout2⟩ := hrecs i _ hs
    simp only [spawnedOf, htag] at ha
    rw [hci] at ha
    injection ha with ha
    rw [List.getElem?_map, hout2, ← ha]
    rfl

theorem sampleListing_teasers :
    ∀ c ∈ sampleRow.Children.filter (qualifies sampleWeb) ++
        secondRow.Children.filter (qualifies sampleWeb),
      ∃ teaser a2 a3, articleTagOf c = some teaser ∧ teaser.Attr[2]? = some a2 ∧
        ',' ∈ a2.Val.data ∧ teaser.Attr[3]? = some a3 ∧
        ((∃ err, fetchHTMLNode sampleWeb a3.Val = .error err) ∨
          ∃ doc, fetchHTMLNode sampleWeb a3.Val = .ok doc ∧
            (∀ a : Article, ∃ a1, extractDescription sampleWeb a (some doc) = .ok a1) ∧
            (∀ a : Article, ∃ a1, extractPublicationDate sampleWeb a (some doc) = .ok a1)) := by
  have hq : sampleRow.Children.filter (qualifies sampleWeb) ++
      secondRow.Children.filter (qualifies sampleWeb) =
      [tile sampleTeaser "Science", tile unreachableTeaser "History",
        tile updatedTeaser "Space"] := rfl
  intro c hc
  rw [hq] at hc
  simp only [List.mem_cons, List.mem_singleton, List.not_mem_nil, or_false] at hc
  rcases hc with rfl | rfl | rfl
  · exact ⟨sampleTeaser, ⟨"", "aria-label", "Deep sea, in colour, Science"⟩,
      ⟨"", "href", "https://ng.example/a"⟩, rfl, rfl, by decide, rfl,
      Or.inr ⟨articleDoc, rfl, fun a => ⟨_, rfl⟩, fun a => ⟨_, rfl⟩⟩⟩
  · exact ⟨unreachableTeaser, ⟨"", "aria-label", "Lost city, History"⟩,
      ⟨"", "href", "https://ng.example/gone"⟩, rfl, rfl, by decide, rfl,
      Or.inl ⟨_, rfl⟩⟩
  · exact ⟨updatedTeaser, ⟨"", "aria-label", "Night sky, Space"⟩,
      ⟨"", "href", "https://ng.example/updated"⟩, rfl, rfl, by decide, rfl,
      Or.inr ⟨updatedDoc, rfl, fun a => ⟨_, rfl⟩, fun a => ⟨_, rfl⟩⟩⟩

/-- C12, at the sample listing, where one of three articles cannot be fetched,
with the goroutines completing in reverse order of their start. -/
theorem composeArticles_failed_fetches_witness :
    (∃ records, composeArticles sampleWeb reverseOrder (some sampleListing) = .ok records ∧
      records.length =
        (sampleRow.Children.filter (qualifies sampleWeb) ++
          secondRow.Children.filter (qualifies sampleWeb)).length ∧
      ∀ (i : Nat) (c teaser : Node) (a2 a3 : Attribute) (err : Error),
        (sampleRow.Children.filter (qualifies sampleWeb) ++
          secondRow.Children.filter (qualifies sampleWeb))[i]? = some c →
        articleTagOf c = some teaser → teaser.Attr[2]? = some a2 →
        teaser.Attr[3]? = some a3 → fetchHTMLNode sampleWeb a3.Val = .error err →
        ∃ title r, a2.Val.data = title ++ ',' :: r ∧ ',' ∉ r ∧
          records[i]? = some ⟨a3.Val, "", String.mk title, ""⟩) ∧
    (composeArticles sampleWeb startOrder (some sampleListing)).toOption.map (fun l => l[1]?) =
      some (some ⟨"https://ng.example/gone", "", "Lost city", ""⟩) :=
  ⟨composeArticles_failed_fetches sampleWeb reverseOrder reverseOrder_fair sampleListing
      sampleRow secondRow (.mk .ElementNode "hr" [] []) rfl rfl rfl sampleRow_navigable
      secondRow_navigable sampleListing_teasers,
    rfl⟩

/-- C12 as stated fails on a listing with one qualifying teaser, which has four
attributes and a comma in the value of the third, and whose article is fetched
without error: the description container of the page is an image, the cut
before `<` faults, and `composeArticles` returns no record at all. -/
theorem composeArticles_faulting_page_counterexample :
    extractTagAttributes sampleWeb []
        (some (.mk .ElementNode "div" [⟨"", "class", "GridPromoTile__Row"⟩]
          [tile voidTeaser "Environment"])) = .ok [⟨Article.zero, some voidTeaser⟩] ∧
      voidTeaser.Attr[2]? = some ⟨"", "aria-label", "Ice cave, Environment"⟩ ∧
      voidTeaser.Attr[3]? = some ⟨"", "href", "https://ng.example/void"⟩ ∧
      fetchHTMLNode sampleWeb "https://ng.example/void" = .ok voidDoc ∧
      composeArticles sampleWeb startOrder (some voidListing) =
        .error Fault.sliceBoundsOutOfRange ∧
      ∀ records, composeArticles sampleWeb startOrder (some voidListing) ≠ .ok records := by
  refine ⟨rfl, rfl, rfl, rfl, rfl, ?_⟩
  intro records h
  have h2 : composeArticles sampleWeb startOrder (some voidListing) =
      .error Fault.sliceBoundsOutOfRange := rfl
  rw [h2] at h
  cases h

end RSSFeeder
